import Mathlib

/-!
Verification development for the FlowState Obsidian plugin sync engine
(`src/main.ts`, `src/fs.ts`, `src/config.ts`).

The TypeScript code is shallowly embedded as pure Lean functions in explicit
state-passing style.  External collaborators (the Supabase gateway, the
Obsidian vault adapter, the `URL` constructor, the configured attachment
folder) are modelled as oracle fields of an environment record `Env`; the
plugin state (vault files, folders, cached routes, the `isSyncing` flag) is a
record `St`.  Every externally visible effect (job fetch, file write, route
fetch, settings save, acknowledgement request, download) is recorded in an
event trace so that ordering and absence of effects are provable.
-/

namespace FlowState

/-! ## JavaScript string primitives, modelled over `List Char` -/

/-- Whitespace test used by the model of JS `String.prototype.trim`. -/
def isWs (c : Char) : Bool := c.isWhitespace

/-- Drops trailing characters satisfying `isWs` (via reverse). -/
def dropTrailingWs (l : List Char) : List Char :=
  (l.reverse.dropWhile isWs).reverse

/-- Model of JS `s.trim()`: drop leading and trailing whitespace. -/
def trimChars (l : List Char) : List Char :=
  dropTrailingWs (l.dropWhile isWs)

/-- Model of JS `s.trim()` on `String`. -/
def jsTrim (s : String) : String := String.mk (trimChars s.data)

/-- Model of JS `s.startsWith(p)`. -/
def jsStartsWith (s p : String) : Bool := p.data.isPrefixOf s.data

/-- Model of JS `s.endsWith(p)`. -/
def jsEndsWith (s p : String) : Bool := p.data.isSuffixOf s.data

/-- Model of JS `s.slice(0, n)` (take the first `n` characters). -/
def jsTake (s : String) (n : Nat) : String := String.mk (s.data.take n)

/-- Model of JS `s.slice(n)` (drop the first `n` characters). -/
def jsDrop (s : String) (n : Nat) : String := String.mk (s.data.drop n)

/-- JS truthiness of a nullable string: `null`/`undefined` and `""` are falsy. -/
def truthyS : Option String → Bool
  | none => false
  | some s => s ≠ ""

/-- Model of JS `a || b` on nullable strings. -/
def jsOrStr (a b : Option String) : Option String :=
  if truthyS a then a else b

/-- Model of JS `a || d` where `d` is a non-null default string. -/
def jsOrDefault (a : Option String) (d : String) : String :=
  match a with
  | some s => if s ≠ "" then s else d
  | none => d

/-- Helper for `splitOnChar`: accumulates the current segment reversed. -/
def splitOnCharGo (sep : Char) : List Char → List Char → List (List Char)
  | [], acc => [acc.reverse]
  | c :: rest, acc =>
    if c = sep then acc.reverse :: splitOnCharGo sep rest []
    else splitOnCharGo sep rest (c :: acc)

/-- Model of JS `s.split(sep)` for a single-character separator. -/
def jsSplit (s : String) (sep : Char) : List String :=
  (splitOnCharGo sep s.data []).map String.mk

/-- Model of JS `arr.join(sep)` / `String.intercalate`. -/
def joinWith (sep : String) : List String → String
  | [] => ""
  | [x] => x
  | x :: y :: rest => x ++ sep ++ joinWith sep (y :: rest)

/-- Model of JS `s.split(sep).pop()`: the last segment of a split. -/
def jsSplitPop (s : String) (sep : Char) : Option String :=
  (jsSplit s sep).getLast?

/-- Model of JS `s.replace(pat, rep)` for a plain (non-regex) pattern:
replaces the first occurrence only. -/
def replaceFirstChars (pat rep : List Char) : List Char → List Char
  | [] => []
  | c :: rest =>
    if pat.isPrefixOf (c :: rest) then rep ++ (c :: rest).drop pat.length
    else c :: replaceFirstChars pat rep rest

/-- String-level wrapper for `replaceFirstChars`. -/
def replaceFirst (s pat rep : String) : String :=
  String.mk (replaceFirstChars pat.data rep.data s.data)

/-- Position of the last `.` in a character list (model of JS `lastIndexOf`). -/
def lastDotPos : List Char → Option Nat
  | [] => none
  | c :: rest =>
    match lastDotPos rest with
    | some k => some (k + 1)
    | none => if c = '.' then some 0 else none

/-- Model of the `base`/`ext` split used by the conflict loops
(`main.ts:557-559`, `fs.ts:91-93`): split at the last `.`, with empty
extension when there is no dot. -/
def splitLastDot (p : String) : String × String :=
  match lastDotPos p.data with
  | some k => (String.mk (p.data.take k), String.mk (p.data.drop k))
  | none => (p, "")

/-- Model of the JS regex replace `s.replace(/\.[^/.]+$/, '')` used at
`main.ts:508,538` to strip a filename extension: removes a final `.ext`
segment whose `ext` is nonempty and contains neither `.` nor `/`. -/
def stripExtension (s : String) : String :=
  match lastDotPos s.data with
  | some k =>
    let tail := s.data.drop (k + 1)
    if tail ≠ [] ∧ tail.all (fun c => c ≠ '.' ∧ c ≠ '/') then
      String.mk (s.data.take k)
    else s
  | none => s

/-- Model of JS `\w` (ASCII word characters). -/
def isWordChar (c : Char) : Bool := c.isAlphanum || c = '_'

/-- Helper for the JS regex replace `/\s+/g → ' '`: collapses every maximal
whitespace run to a single space.  The boolean flag records whether the
previous character was part of a whitespace run. -/
def collapseWsGo : Bool → List Char → List Char
  | _, [] => []
  | prev, c :: rest =>
    if isWs c then
      if prev then collapseWsGo true rest
      else ' ' :: collapseWsGo true rest
    else c :: collapseWsGo false rest

/-- Fueled little-endian decimal digits of a natural number. -/
def natDigitsRev : Nat → Nat → List Nat
  | 0, _ => []
  | fuel + 1, n => if n = 0 then [] else n % 10 :: natDigitsRev fuel (n / 10)

/-- Model of JS number-to-string conversion (template literal `${i}`) for
nonnegative integers: standard decimal rendering. -/
def natRepr (n : Nat) : String :=
  if n = 0 then "0"
  else String.mk (((natDigitsRev n n).reverse).map Nat.digitChar)

/-- Uppercase hexadecimal digit, used by the `encodeURIComponent` model. -/
def hexCharUpper (n : Nat) : Char :=
  match n with
  | 0 => '0' | 1 => '1' | 2 => '2' | 3 => '3' | 4 => '4'
  | 5 => '5' | 6 => '6' | 7 => '7' | 8 => '8' | 9 => '9'
  | 10 => 'A' | 11 => 'B' | 12 => 'C' | 13 => 'D' | 14 => 'E'
  | _ => 'F'

/-- Characters left unescaped by JS `encodeURIComponent`. -/
def uriUnreserved (c : Char) : Bool :=
  c.isAlphanum || c = '-' || c = '_' || c = '.' || c = '!' ||
    c = '~' || c = '*' || c = '\'' || c = '(' || c = ')'

/-- Percent-encoding of one UTF-8 byte. -/
def pctByte (b : UInt8) : List Char :=
  ['%', hexCharUpper (b.toNat / 16), hexCharUpper (b.toNat % 16)]

/-- Model of the external JS builtin `encodeURIComponent`. -/
def encodeURIComponent (s : String) : String :=
  String.mk (s.data.flatMap (fun c =>
    if uriUnreserved c then [c] else (String.utf8EncodeChar c).flatMap pctByte))

/-! ## Path normalization (model of the Obsidian `normalizePath` API) -/

/-- Collapses duplicate `/` and removes a trailing `/`. -/
def collapseSlashes : List Char → List Char
  | [] => []
  | [c] => if c = '/' then [] else [c]
  | a :: b :: rest =>
    if a = '/' ∧ b = '/' then collapseSlashes (b :: rest)
    else a :: collapseSlashes (b :: rest)

/-- Model of the external Obsidian `normalizePath` API: backslashes become
slashes, duplicate separators collapse, and leading/trailing separators are
removed. -/
def normalizePath (p : String) : String :=
  String.mk (collapseSlashes ((p.data.map (fun c => if c = '\\' then '/' else c)).dropWhile (fun c => c = '/')))

/-- Boolean well-formedness of a path already in `normalizePath` normal form:
nonempty, no backslash, no leading/trailing `/`, no `//`. -/
def noDoubleSlash : List Char → Bool
  | [] => true
  | [_] => true
  | a :: b :: rest => !(a = '/' && b = '/') && noDoubleSlash (b :: rest)

/-- A path on which `normalizePath` acts as the identity. -/
def wellFormedPath (p : String) : Bool :=
  p.data ≠ [] && p.data.all (fun c => c ≠ '\\') &&
    p.data.head? ≠ some '/' && p.data.getLast? ≠ some '/' && noDoubleSlash p.data

/-- A single path segment: nonempty, without `/` or `\`. -/
def wellFormedSeg (s : String) : Bool :=
  s.data ≠ [] && s.data.all (fun c => c ≠ '/' ∧ c ≠ '\\')

/-! ## Data model -/

/-- A job row as this core observes it (`@flowstate/supabase-types` `Job`,
with the metadata fields `main.ts:565-587` reads flattened in). -/
structure Job where
  id : String
  status : String
  route_id : Option String
  formatted_content : Option String
  transcribed_text : Option String
  final_title : Option String
  original_filename : Option String
  destination_url : Option String
  original_file_url : Option String
  meta_original_object : Option (String × String)
  meta_original_file_url : Option String
  deriving DecidableEq, Repr

/-- The route fields the delivery engine reads (`main.ts:442-468`). -/
structure Route where
  destination_location : Option String
  include_original_file : Option Bool
  append_to_existing : Option Bool
  deriving DecidableEq, Repr

/-- Externally visible effects of a sync cycle, in issue order. -/
inductive Ev where
  | fetchJobs
  | writeFile (path : String)
  | modifyFile (path : String)
  | writeBin (path : String)
  | createFolder (path : String)
  | fetchRoute (routeId : String)
  | saveSettings
  | ack (jobId expected url : String)
  | storageDownload (bucket name : String)
  | httpGet (url : String)
  deriving DecidableEq, Repr

/-- Plugin-side state: vault contents (files as path/content pairs, folders as
paths), the persisted route cache, the `isSyncing` flag, and the event trace. -/
structure St where
  vault : List (String × String)
  folders : List String
  routes : List (String × Route)
  isSyncing : Bool
  trace : List Ev
  deriving DecidableEq, Repr

/-- Oracles for the external collaborators: the Supabase query results, the
storage/HTTP downloads, the `URL` parser, the Obsidian attachment-folder
setting, and the auth/config guards read by the sync entry points. -/
structure Env where
  fetchedJobs : Except String (List Job)
  fetchRouteById : String → Option Route
  storageDownload : String → String → Except String Nat
  httpGet : String → Except String Nat
  parseUrlPath : String → Option String
  attachmentFolderPath : Option String
  ackErr : String → Option String
  hasUrl : Bool
  hasKey : Bool
  session : Bool

/-- One per-entry record of `syncOnceWithDetails` (`main.ts:425-430`; the
wall-clock timestamp is outside the model). -/
structure Entry where
  path : String
  title : String
  jobId : String
  deriving DecidableEq, Repr

/-- Result shape of `syncWithLogs` (`main.ts:274`). -/
structure SyncResult where
  success : Bool
  entries : List Entry
  errMsg : Option String
  jobsFound : Nat
  deriving DecidableEq, Repr

/-! ## Vault / state primitives -/

/-- Association-list lookup (model of JS object indexing). -/
def lookupBy {α : Type} : List (String × α) → String → Option α
  | [], _ => none
  | e :: rest, k => if e.1 = k then some e.2 else lookupBy rest k

/-- Association-list upsert (model of JS object assignment). -/
def setBy {α : Type} : List (String × α) → String → α → List (String × α)
  | [], k, v => [(k, v)]
  | e :: rest, k, v => if e.1 = k then (k, v) :: rest else e :: setBy rest k v

/-- Model of `app.vault.adapter.exists`: true for files and folders. -/
def existsPath (st : St) (p : String) : Bool :=
  (lookupBy st.vault p).isSome || st.folders.contains p

/-- Reads a vault file (model of `app.vault.read` on a `TFile`). -/
def readFile (st : St) (p : String) : Option String := lookupBy st.vault p

/-- Creates or overwrites a vault file. -/
def putFile (st : St) (p c : String) : St :=
  { st with vault := setBy st.vault p c }

/-- Appends one event to the trace. -/
def emit (st : St) (e : Ev) : St := { st with trace := st.trace ++ [e] }

/-- One step of `ensureFolder`: extend the cumulative path and create the
folder when missing. -/
def ensureStep (acc : String × St) (p : String) : String × St :=
  let current := if acc.1 = "" then p else acc.1 ++ "/" ++ p
  if existsPath acc.2 current then (current, acc.2)
  else (current, emit { acc.2 with folders := acc.2.folders ++ [current] } (Ev.createFolder current))

/-- Model of `ensureFolder` (`fs.ts:18-27`): create every missing cumulative
path segment of the normalized folder path. -/
def ensureFolder (st : St) (folderPath : String) : St :=
  (((jsSplit (normalizePath folderPath) '/').filter (fun s => s ≠ "")).foldl
    ensureStep ("", st)).2

/-- Model of `atomicWrite` (`fs.ts:29-45`): overwrite an existing file in
place, otherwise ensure the parent folder and create the file. -/
def atomicWrite (st : St) (path content : String) : St :=
  let path := normalizePath path
  match lookupBy st.vault path with
  | some _ => emit (putFile st path content) (Ev.writeFile path)
  | none =>
    let parent := joinWith "/" ((jsSplit path '/').dropLast)
    let st := if parent ≠ "" then ensureFolder st parent else st
    emit (putFile st path content) (Ev.writeFile path)

/-! ## Filename utilities (`fs.ts`) -/

/-- Characters removed by the external `sanitize-filename` npm dependency:
filename-illegal characters and control characters. -/
def illegalFilenameChar (c : Char) : Bool :=
  c = '/' || c = '?' || c = '<' || c = '>' || c = '\\' || c = ':' ||
    c = '*' || c = '|' || c = '"' || c.toNat < 32 ||
    (c.toNat ≥ 128 && c.toNat ≤ 159)

/-- Model of the external `sanitize-filename` dependency used by
`fs.ts:107-116`: strips characters illegal in filenames. -/
def sanitizeFilename (s : String) : String :=
  String.mk (s.data.filter (fun c => !illegalFilenameChar c))

/-- Model of `buildSafeNoteFilename` (`fs.ts:111-116`). -/
def buildSafeNoteFilename (baseTitle : String) (maxBaseLength : Nat) : String :=
  let sanitized := jsTrim (sanitizeFilename (if baseTitle = "" then "Untitled" else baseTitle))
  let base := if sanitized.length > 0 then sanitized else "Untitled"
  let truncated := if base.length > maxBaseLength then jsTrim (jsTake base maxBaseLength) else base
  if jsEndsWith truncated ".md" then truncated else truncated ++ ".md"

/-- The shared conflict-probe loop (`while (await adapter.exists(cand i)) i++`)
of `main.ts:560-561` and `fs.ts:94-95`, with explicit fuel: returns the first
candidate (from index `i` upward) for which `ex` is false, or the candidate at
fuel exhaustion. -/
def searchFree (ex : String → Bool) (cand : Nat → String) : Nat → Nat → String
  | 0, i => cand i
  | fuel + 1, i => if ex (cand i) then searchFree ex cand fuel (i + 1) else cand i

/-- The numbered conflict candidate `` `${base} ${i}${ext}` ``. -/
def numberedCand (base ext : String) (i : Nat) : String :=
  base ++ " " ++ natRepr i ++ ext

/-- Fuel that always suffices for the conflict probes: one more than the
number of existing vault entries. -/
def probeFuel (st : St) : Nat := st.vault.length + st.folders.length + 1

/-- Model of `resolveConflictPath` (`main.ts:553-563`). -/
def resolveConflictPath (st : St) (targetPath : String) : String :=
  if existsPath st targetPath = false then targetPath
  else
    let pe := splitLastDot targetPath
    searchFree (existsPath st) (numberedCand pe.1 pe.2) (probeFuel st) 1

/-- Model of `makePath` inside `writeBinaryToAttachments` (`fs.ts:86`). -/
def makePath (folder name : String) : String :=
  normalizePath (folder ++ "/" ++ name)

/-- The collision-free attachment name chosen by `writeBinaryToAttachments`
(`fs.ts:88-97`). -/
def chooseAttachmentName (st : St) (folder filename : String) : String :=
  if existsPath st (makePath folder filename) = false then filename
  else
    let pe := splitLastDot filename
    searchFree (fun nm => existsPath st (makePath folder nm))
      (numberedCand pe.1 pe.2) (probeFuel st) 1

/-- Model of `writeBinaryToAttachments` (`fs.ts:47-104`).  Both call sites
(`main.ts:611,631`) pass no options, so `baseFolderOpt` and the attachments
subdirectory take their defaults; binary contents are outside the model, so a
written binary is recorded as an empty-content vault file plus a `writeBin`
event.  Returns the final path. -/
def writeBinaryToAttachments (env : Env) (st : St) (filename : String)
    (baseFolderOpt : Option String) : String × St :=
  let userFolder := env.attachmentFolderPath.map jsTrim
  let baseFolder := baseFolderOpt.map jsTrim
  let folder :=
    if truthyS userFolder then
      let uf := userFolder.getD ""
      if uf = "." ∨ uf = "./" then jsOrDefault baseFolder "."
      else if jsStartsWith uf "./" then
        let rel := jsDrop uf 2
        if truthyS baseFolder then baseFolder.getD "" ++ "/" ++ rel else rel
      else uf
    else if truthyS baseFolder then baseFolder.getD ""
    else "Flow State" ++ "/" ++ "_attachments"
  let folder := normalizePath folder
  let st := ensureFolder st folder
  let targetName := chooseAttachmentName st folder filename
  let targetPath := makePath folder targetName
  (targetPath, emit (putFile st targetPath "") (Ev.writeBin targetPath))

/-! ## Delivery engine (`main.ts`) -/

/-- Model of the `needsRefresh` staleness check (`main.ts:443-448`): stale when
no cached entry, a null/blank destination, or a null include-original flag. -/
def needsRefresh : Option Route → Bool
  | none => true
  | some r =>
    match r.destination_location with
    | none => true
    | some d => if jsTrim d = "" then true else r.include_original_file.isNone

/-- Model of the route resolution step of `writeJobToVault`
(`main.ts:442-461`): use the cached route when fresh; otherwise fetch it
remotely, overwrite the cache entry keyed by `routeId`, and persist the
settings. -/
def resolveRoute (env : Env) (st : St) (routeId : String) : Except String Route × St :=
  let cached := lookupBy st.routes routeId
  let doRefresh := fun (st : St) =>
    let st := emit st (Ev.fetchRoute routeId)
    match env.fetchRouteById routeId with
    | none => (Except.error ("Route " ++ routeId ++ " not found"), st)
    | some row =>
      let st : St := { st with routes := setBy st.routes routeId row }
      (Except.ok row, emit st Ev.saveSettings)
  match cached with
  | none => doRefresh st
  | some r => if needsRefresh (some r) then doRefresh st else (Except.ok r, st)

/-- Model of the storage-URL shape test `^\/storage\/v1\/object\/([^/]+)\/(.+)$`
(`main.ts:598`) applied to a URL pathname. -/
def storageMatch (pathname : String) : Option (String × String) :=
  let pre := "/storage/v1/object/"
  if jsStartsWith pathname pre then
    let rest := jsDrop pathname pre.length
    match jsSplit rest '/' with
    | [] => none
    | b :: tailParts =>
      let name := joinWith "/" tailParts
      if b ≠ "" ∧ tailParts ≠ [] ∧ name ≠ "" then some (b, name) else none
  else none

/-- Model of the storage-download tail of `maybeDownloadOriginal`
(`main.ts:625-637`): download from the bucket, save via
`writeBinaryToAttachments`, and recover from any failure by returning null. -/
def storagePart (env : Env) (st : St) (bucket name : String) : Option String × St :=
  let st := emit st (Ev.storageDownload bucket name)
  match env.storageDownload bucket name with
  | Except.error _ => (none, st)
  | Except.ok _ =>
    let filename := jsOrDefault (jsSplitPop name '/') "original"
    let r := writeBinaryToAttachments env st filename none
    (some r.1, r.2)

/-- Model of `maybeDownloadOriginal` (`main.ts:565-638`).  The attachment
source is resolved in priority order (job URL, metadata bucket/name pair,
metadata URL); a direct URL is first normalized and parsed (URL parsing is the
`Env.parseUrlPath` oracle), routed through storage when it matches the storage
shape, otherwise fetched over HTTP.  Every download failure is swallowed and
yields no attachment.  The `baseFolder` parameter is accepted but, as in the
source, never forwarded to `writeBinaryToAttachments`. -/
def maybeDownloadOriginal (env : Env) (st : St) (it : Job) (_baseFolder : Option String) :
    Option String × St :=
  let metaFallback : Option (String × String) × Option String :=
    if truthyS it.meta_original_file_url then (none, it.meta_original_file_url)
    else (none, none)
  let init : Option (String × String) × Option String :=
    if truthyS it.original_file_url then (none, it.original_file_url)
    else
      match it.meta_original_object with
      | some (b, n) => if b ≠ "" ∧ n ≠ "" then (some (b, n), none) else metaFallback
      | none => metaFallback
  match init.2 with
  | some u =>
    let normalizedUrl := replaceFirst u "http://kong:8000" "http://127.0.0.1:54321"
    match env.parseUrlPath normalizedUrl with
    | none => (none, st)
    | some pathname =>
      match storageMatch pathname with
      | some (b, n) => storagePart env st b n
      | none =>
        let st := emit st (Ev.httpGet normalizedUrl)
        match env.httpGet normalizedUrl with
        | Except.error _ => (none, st)
        | Except.ok _ =>
          let fileName := jsOrDefault (jsSplitPop u '/') "original"
          let r := writeBinaryToAttachments env st fileName none
          (some r.1, r.2)
  | none =>
    match init.1 with
    | some (b, n) => storagePart env st b n
    | none => (none, st)

/-- Model of the base-title fallback chain
`it.final_title || (it.original_filename ? it.original_filename.replace(...) : 'Untitled')`
(`main.ts:508,538`). -/
def jobBaseTitle (it : Job) : String :=
  let fallback :=
    match it.original_filename with
    | some f => if f ≠ "" then stripExtension f else "Untitled"
    | none => "Untitled"
  match it.final_title with
  | some t => if t ≠ "" then t else fallback
  | none => fallback

/-- Model of the heading sanitization
`baseTitle.replace(/[^\w\s-]/g, '').trim().replace(/\s+/g, ' ')`
(`main.ts:509`). -/
def appendSafeTitle (t : String) : String :=
  String.mk (collapseWsGo false (trimChars (t.data.filter
    (fun c => isWordChar c || isWs c || c = '-'))))

/-- The folder part of an append-mode destination file path
(`main.ts:472,484-486`). -/
def parentOf (destinationLocation : String) : String :=
  joinWith "/" ((jsSplit destinationLocation '/').dropLast)

/-- Model of the container-ensuring block of `writeJobToVault`
(`main.ts:470-480`). -/
def ensureDestination (st : St) (destinationLocation : String) (appendMode : Bool) : St :=
  if appendMode then
    if parentOf destinationLocation ≠ "" then ensureFolder st (parentOf destinationLocation)
    else st
  else ensureFolder st destinationLocation

/-- Model of the attachment destination-folder computation (`main.ts:482-487`). -/
def destFolderOf (destinationLocation : String) (appendMode : Bool) : String :=
  if appendMode then
    if jsEndsWith destinationLocation ".md" then parentOf destinationLocation
    else destinationLocation
  else destinationLocation

/-- Model of the optional attachment block of `writeJobToVault`
(`main.ts:489-503`): the embed reference text plus the (possibly mutated)
state.  `maybeDownloadOriginal` never throws, so the surrounding
`try`/`catch` has no failing path. -/
def attachmentBlock (env : Env) (st : St) (it : Job) (includeOriginal : Bool)
    (destFolder : String) : String × St :=
  if includeOriginal then
    let att := maybeDownloadOriginal env st it (some destFolder)
    match att.1 with
    | some attachmentPath => ("\n\n![[" ++ attachmentPath ++ "]]\n\n", att.2)
    | none => ("", att.2)
  else ("", st)

/-- Model of the content composition (`main.ts:505-514`). -/
def composeContent (it : Job) (body attachmentSection : String) (appendMode : Bool) : String :=
  if appendMode then
    "# " ++ appendSafeTitle (jobBaseTitle it) ++ "\n\n" ++ body ++ attachmentSection
  else body ++ attachmentSection

/-- The append-mode destination file path (`main.ts:518`). -/
def appendFilePath (destinationLocation : String) : String :=
  if jsEndsWith destinationLocation ".md" then destinationLocation
  else destinationLocation ++ ".md"

/-- Model of the append-mode write (`main.ts:516-535`): `filePath` is the
destination with a `.md` extension ensured; an existing file is re-read and
overwritten with the blank-line-separated concatenation, a missing one is
created. -/
def writeAppend (st : St) (destinationLocation content : String) : String × St :=
  match readFile st (appendFilePath destinationLocation) with
  | some existing =>
    (appendFilePath destinationLocation,
      emit (putFile st (appendFilePath destinationLocation)
          (if existing ≠ "" then existing ++ "\n\n" ++ content else content))
        (Ev.modifyFile (appendFilePath destinationLocation)))
  | none =>
    (appendFilePath destinationLocation,
      atomicWrite st (appendFilePath destinationLocation) content)

/-- Model of the new-file-mode write (`main.ts:536-550`). -/
def writeNewFile (st : St) (it : Job) (destinationLocation content : String) : String × St :=
  let baseName := jobBaseTitle it
  let relName := buildSafeNoteFilename baseName 120
  let relPath :=
    if destinationLocation = "/" ∨ destinationLocation = "" then relName
    else normalizePath (destinationLocation ++ "/" ++ relName)
  let finalPath := resolveConflictPath st relPath
  (finalPath, atomicWrite st finalPath content)

/-- Model of `writeJobToVault` (`main.ts:436-551`): resolve the route, ensure
destination folders, optionally fetch the attachment, compose the content, and
write it in append or new-file mode.  Thrown JS errors are `Except.error`; the
state (including mutations already performed) survives a throw. -/
def writeJobToVault (env : Env) (st : St) (it : Job) (body : String) :
    Except String String × St :=
  match it.route_id with
  | none => (Except.error ("Job " ++ it.id ++ " missing route_id"), st)
  | some routeId =>
    match resolveRoute env st routeId with
    | (Except.error e, st) => (Except.error e, st)
    | (Except.ok route, st) =>
      match route.destination_location with
      | none => (Except.error "TypeError: destination_location is null", st)
      | some d =>
        let destinationLocation := normalizePath (jsTrim d)
        let appendMode := decide (route.append_to_existing = some true)
        match route.include_original_file with
        | none => (Except.error ("Route " ++ routeId ++ " missing include_original_file"), st)
        | some includeOriginal =>
          let st := ensureDestination st destinationLocation appendMode
          let att := attachmentBlock env st it includeOriginal
            (destFolderOf destinationLocation appendMode)
          let st := att.2
          let content := composeContent it body att.1 appendMode
          if appendMode then
            let r := writeAppend st destinationLocation content
            (Except.ok r.1, r.2)
          else
            let r := writeNewFile st it destinationLocation content
            (Except.ok r.1, r.2)

/-- The destination URL recorded in the acknowledgement (`main.ts:376`). -/
def destinationUrlFor (writtenPath : String) : String :=
  "obsidian://open?file=" ++ encodeURIComponent writtenPath

/-- Pointwise semantics of the conditional acknowledgement request
`update({status:"delivered", destination_url}).eq("id", jobId).eq("status", expected)`
(`main.ts:377-381`): a row is rewritten only when both filters match. -/
def ackStep (jobId expected url : String) (j : Job) : Job :=
  if j.id = jobId ∧ j.status = expected then
    { j with status := "delivered", destination_url := some url }
  else j

/-- Semantics of the acknowledgement request applied to a jobs table. -/
def ackApply (db : List Job) (jobId expected url : String) : List Job :=
  db.map (ackStep jobId expected url)

/-- One iteration of the `syncOnce` job loop (`main.ts:367-386`): the JS-falsy
content guard, the vault write, then the guarded acknowledgement request
(whose transport failure is the `Env.ackErr` oracle). -/
def processJob (env : Env) (st : St) (it : Job) : Except String String × St :=
  match jsOrStr it.formatted_content it.transcribed_text with
  | none => (Except.error ("Missing formatted_content for job " ++ it.id), st)
  | some body =>
    if body = "" then (Except.error ("Missing formatted_content for job " ++ it.id), st)
    else
      match writeJobToVault env st it body with
      | (Except.error e, st) => (Except.error e, st)
      | (Except.ok writtenPath, st) =>
        let url := destinationUrlFor writtenPath
        let st := emit st (Ev.ack it.id "transcribed" url)
        match env.ackErr it.id with
        | some e => (Except.error e, st)
        | none => (Except.ok writtenPath, st)

/-- The `syncOnce` job loop over the fetched batch: strictly in order, aborting
the cycle on the first failure. -/
def syncJobs (env : Env) (st : St) : List Job → Except String (List String) × St
  | [] => (Except.ok [], st)
  | it :: rest =>
    match processJob env st it with
    | (Except.error e, st) => (Except.error e, st)
    | (Except.ok p, st) =>
      match syncJobs env st rest with
      | (Except.error e, st) => (Except.error e, st)
      | (Except.ok ps, st) => (Except.ok (p :: ps), st)

/-- Model of `syncOnce` (`main.ts:350-389`): the single batch fetch (its
filtered, ordered, limited result is the `Env.fetchedJobs` oracle) followed by
the per-job loop. -/
def syncOnce (env : Env) (st : St) : Except String (List String) × St :=
  let st := emit st Ev.fetchJobs
  match env.fetchedJobs with
  | Except.error e => (Except.error e, st)
  | Except.ok items => syncJobs env st items

/-- The entry title fallback chain of `syncOnceWithDetails` (`main.ts:428`). -/
def entryTitle (it : Job) (writtenPath : String) : String :=
  jsOrDefault it.final_title
    (jsOrDefault it.original_filename
      (jsOrDefault (jsSplitPop writtenPath '/') "Untitled"))

/-- The `syncOnceWithDetails` job loop (`main.ts:409-431`). -/
def syncJobsDetails (env : Env) (st : St) : List Job → Except String (List Entry) × St
  | [] => (Except.ok [], st)
  | it :: rest =>
    match processJob env st it with
    | (Except.error e, st) => (Except.error e, st)
    | (Except.ok p, st) =>
      match syncJobsDetails env st rest with
      | (Except.error e, st) => (Except.error e, st)
      | (Except.ok es, st) =>
        (Except.ok ({ path := p, title := entryTitle it p, jobId := it.id } :: es), st)

/-- Model of `syncOnceWithDetails` (`main.ts:392-434`). -/
def syncOnceWithDetails (env : Env) (st : St) : Except String (List Entry × Nat) × St :=
  let st := emit st Ev.fetchJobs
  match env.fetchedJobs with
  | Except.error e => (Except.error e, st)
  | Except.ok items =>
    match syncJobsDetails env st items with
    | (Except.error e, st) => (Except.error e, st)
    | (Except.ok es, st) => (Except.ok (es, items.length), st)

/-! ## Sync orchestrator entry points -/

/-- Model of `syncNowAndGetPaths` (`main.ts:308-348`): the concurrent-sync
guard, the configuration and session guards, the cycle, the catch that swallows
any thrown error into an empty result, and the `finally` that always clears
`isSyncing`. -/
def syncNowAndGetPaths (env : Env) (st : St) : List String × St :=
  if st.isSyncing then ([], st)
  else
    let st : St := { st with isSyncing := true }
    let r : List String × St :=
      if !(env.hasUrl && env.hasKey) then ([], st)
      else if !env.session then ([], st)
      else
        match syncOnce env st with
        | (Except.ok paths, st) => (paths, st)
        | (Except.error _, st) => ([], st)
    (r.1, { r.2 with isSyncing := false })

/-- Model of `syncWithLogs` (`main.ts:274-305`). -/
def syncWithLogs (env : Env) (st : St) : SyncResult × St :=
  if st.isSyncing then
    ({ success := false, entries := [], errMsg := some "Sync already in progress",
       jobsFound := 0 }, st)
  else
    let st : St := { st with isSyncing := true }
    let r : SyncResult × St :=
      if !(env.hasUrl && env.hasKey) then
        ({ success := false, entries := [], errMsg := some "Supabase not configured",
           jobsFound := 0 }, st)
      else if !env.session then
        ({ success := false, entries := [], errMsg := some "Not signed in", jobsFound := 0 }, st)
      else
        match syncOnceWithDetails env st with
        | (Except.ok (entries, jobsFound), st) =>
          ({ success := true, entries := entries, errMsg := none, jobsFound := jobsFound }, st)
        | (Except.error e, st) =>
          ({ success := false, entries := [], errMsg := some e, jobsFound := 0 }, st)
    (r.1, { r.2 with isSyncing := false })

/-! ## Basic state lemmas -/

theorem lookupBy_setBy_self {α : Type} (l : List (String × α)) (k : String) (v : α) :
    lookupBy (setBy l k v) k = some v := by
  induction l with
  | nil => simp [setBy, lookupBy]
  | cons e rest ih =>
    by_cases h : e.1 = k
    · simp [setBy, h, lookupBy]
    · simp [setBy, h, lookupBy, ih]

theorem readFile_emit (st : St) (e : Ev) (p : String) :
    readFile (emit st e) p = readFile st p := rfl

theorem readFile_putFile_self (st : St) (p c : String) :
    readFile (putFile st p c) p = some c := by
  simp [readFile, putFile, lookupBy_setBy_self]

theorem ensureFolder_aux (segs : List String) (cur : String) (st : St) :
    ((segs.foldl ensureStep (cur, st)).2).vault = st.vault ∧
    ((segs.foldl ensureStep (cur, st)).2).routes = st.routes ∧
    ((segs.foldl ensureStep (cur, st)).2).isSyncing = st.isSyncing ∧
    ∃ Δ, ((segs.foldl ensureStep (cur, st)).2).trace = st.trace ++ Δ := by
  induction segs generalizing cur st with
  | nil => exact ⟨rfl, rfl, rfl, [], by simp⟩
  | cons s rest ih =>
    simp only [List.foldl_cons]
    by_cases h : existsPath st (if cur = "" then s else cur ++ "/" ++ s)
    · rw [show ensureStep (cur, st) s = (if cur = "" then s else cur ++ "/" ++ s, st) by
        simp [ensureStep, h]]
      exact ih _ st
    · rw [show ensureStep (cur, st) s = (if cur = "" then s else cur ++ "/" ++ s,
        emit { st with folders := st.folders ++ [if cur = "" then s else cur ++ "/" ++ s] }
          (Ev.createFolder (if cur = "" then s else cur ++ "/" ++ s))) by
        simp [ensureStep, h]]
      obtain ⟨h1, h2, h3, Δ, h4⟩ := ih (if cur = "" then s else cur ++ "/" ++ s)
        (emit { st with folders := st.folders ++ [if cur = "" then s else cur ++ "/" ++ s] }
          (Ev.createFolder (if cur = "" then s else cur ++ "/" ++ s)))
      refine ⟨by simpa [emit] using h1, by simpa [emit] using h2, by simpa [emit] using h3,
        Ev.createFolder (if cur = "" then s else cur ++ "/" ++ s) :: Δ, ?_⟩
      rw [h4]
      simp [emit]

theorem ensureFolder_vault (st : St) (f : String) :
    (ensureFolder st f).vault = st.vault := (ensureFolder_aux _ _ _).1

theorem ensureFolder_routes (st : St) (f : String) :
    (ensureFolder st f).routes = st.routes := (ensureFolder_aux _ _ _).2.1

theorem ensureFolder_trace (st : St) (f : String) :
    ∃ Δ, (ensureFolder st f).trace = st.trace ++ Δ := (ensureFolder_aux _ _ _).2.2.2

theorem readFile_ensureFolder (st : St) (f p : String) :
    readFile (ensureFolder st f) p = readFile st p := by
  simp [readFile, ensureFolder_vault]

theorem atomicWrite_readFile_self (st : St) (p c : String) :
    readFile (atomicWrite st p c) (normalizePath p) = some c := by
  unfold atomicWrite
  cases h : lookupBy st.vault (normalizePath p) with
  | some v =>
    simp only [h]
    simp [readFile, emit, putFile, lookupBy_setBy_self]
  | none =>
    simp only [h]
    by_cases hp : joinWith "/" ((jsSplit (normalizePath p) '/').dropLast) = ""
    · simp [hp, readFile, emit, putFile, lookupBy_setBy_self]
    · simp [hp, readFile, emit, putFile, lookupBy_setBy_self]

theorem atomicWrite_trace (st : St) (p c : String) :
    ∃ Δ, (atomicWrite st p c).trace = st.trace ++ Δ ++ [Ev.writeFile (normalizePath p)] := by
  unfold atomicWrite
  cases h : lookupBy st.vault (normalizePath p) with
  | some v =>
    simp only [h]
    exact ⟨[], by simp [emit, putFile]⟩
  | none =>
    simp only [h]
    by_cases hp : joinWith "/" ((jsSplit (normalizePath p) '/').dropLast) = ""
    · exact ⟨[], by simp [hp, emit, putFile]⟩
    · obtain ⟨Δ, hΔ⟩ := ensureFolder_trace st (joinWith "/" ((jsSplit (normalizePath p) '/').dropLast))
      exact ⟨Δ, by simp [hp, emit, putFile, hΔ]⟩

/-! ## Claim C2: concurrent-trigger guard -/

/-- C2: an invocation of either sync entry point while a sync is already in
progress (`isSyncing` true) returns immediately with zero processed entries,
leaves the state (in particular the event trace) untouched, and therefore
never issues a batch job fetch. -/
theorem concurrentTriggerGuard (env : Env) (st : St) (h : st.isSyncing = true) :
    syncNowAndGetPaths env st = ([], st) ∧
    syncWithLogs env st =
      ({ success := false, entries := [], errMsg := some "Sync already in progress",
         jobsFound := 0 }, st) ∧
    ((syncNowAndGetPaths env st).2).trace = st.trace ∧
    ((syncWithLogs env st).2).trace = st.trace := by
  refine ⟨?_, ?_, ?_, ?_⟩ <;> simp [syncNowAndGetPaths, syncWithLogs, h]

/-- Witness for `concurrentTriggerGuard` at a concrete busy state. -/
theorem concurrentTriggerGuard_witness :
    syncNowAndGetPaths
      { fetchedJobs := Except.ok [], fetchRouteById := fun _ => none,
        storageDownload := fun _ _ => Except.error "e", httpGet := fun _ => Except.error "e",
        parseUrlPath := fun _ => none, attachmentFolderPath := none, ackErr := fun _ => none,
        hasUrl := true, hasKey := true, session := true }
      { vault := [], folders := [], routes := [], isSyncing := true, trace := [] } =
      ([], { vault := [], folders := [], routes := [], isSyncing := true, trace := [] }) :=
  (concurrentTriggerGuard _ _ rfl).1

/-! ## Concrete fixtures reused by witnesses and counterexamples -/

/-- An environment whose oracles all answer trivially. -/
def envNull : Env :=
  { fetchedJobs := Except.ok [], fetchRouteById := fun _ => none,
    storageDownload := fun _ _ => Except.error "offline",
    httpGet := fun _ => Except.error "offline",
    parseUrlPath := fun _ => none, attachmentFolderPath := none,
    ackErr := fun _ => none, hasUrl := true, hasKey := true, session := true }

/-- An idle empty plugin state. -/
def stEmpty : St :=
  { vault := [], folders := [], routes := [], isSyncing := false, trace := [] }

/-- A busy plugin state (a sync cycle is in flight). -/
def stBusy : St :=
  { vault := [], folders := [], routes := [], isSyncing := true, trace := [] }

/-- A job ready for delivery, with content and a route id. -/
def jobHello : Job :=
  { id := "job1", status := "transcribed", route_id := some "route1",
    formatted_content := some "content", transcribed_text := none,
    final_title := some "Hello", original_filename := none, destination_url := none,
    original_file_url := none, meta_original_object := none, meta_original_file_url := none }

/-- A fresh cached new-file-mode route. -/
def routeInbox : Route :=
  { destination_location := some "Inbox", include_original_file := some false,
    append_to_existing := none }

/-! ## Claim C3: the `isSyncing` flag after an invocation -/

/-- C3 counterexample: an invocation that is skipped at entry (because
`isSyncing` is already held by an in-flight cycle) returns with the flag still
set, contradicting the claim that every completed invocation leaves the flag
false even when skipped at entry. -/
theorem skippedSyncLeavesFlagSet :
    ((syncNowAndGetPaths envNull stBusy).2).isSyncing = true ∧
    ((syncWithLogs envNull stBusy).2).isSyncing = true := by
  exact ⟨rfl, rfl⟩

/-- C3 (amended): an invocation of either entry point that actually entered a
cycle (flag clear at entry) always exits with the flag clear, whether the
cycle succeeded, returned early, or threw; an invocation skipped at entry
leaves the whole state — including the flag, which is owned by the in-flight
cycle — unchanged, so no invocation ever leaves set a flag it set itself. -/
theorem isSyncingNeverLeaked (env : Env) (st : St) :
    (st.isSyncing = false →
      ((syncNowAndGetPaths env st).2).isSyncing = false ∧
      ((syncWithLogs env st).2).isSyncing = false) ∧
    (st.isSyncing = true →
      (syncNowAndGetPaths env st).2 = st ∧ (syncWithLogs env st).2 = st) := by
  constructor
  · intro h
    constructor
    · simp [syncNowAndGetPaths, h]
    · simp [syncWithLogs, h]
  · intro h
    constructor
    · simp [syncNowAndGetPaths, h]
    · simp [syncWithLogs, h]

/-- Witness for `isSyncingNeverLeaked`: both hypotheses discharged at concrete
states. -/
theorem isSyncingNeverLeaked_witness :
    (((syncNowAndGetPaths envNull stEmpty).2).isSyncing = false ∧
      ((syncWithLogs envNull stEmpty).2).isSyncing = false) ∧
    ((syncNowAndGetPaths envNull stBusy).2 = stBusy ∧
      (syncWithLogs envNull stBusy).2 = stBusy) :=
  ⟨(isSyncingNeverLeaked envNull stEmpty).1 rfl, (isSyncingNeverLeaked envNull stBusy).2 rfl⟩

/-! ## Claim C5: missing content fails fast -/

/-- C5: a job whose formatted content and transcribed text are both JS-falsy
(absent or empty) makes the cycle abort with the missing-content error (the
`InvalidJobError` of the specification taxonomy), with the state — and hence
the event trace — untouched: no write and no acknowledgement happen for that
job, and the loop does not continue to later jobs. -/
theorem missingContentFailsFast (env : Env) (st : St) (it : Job) (rest : List Job)
    (h : truthyS (jsOrStr it.formatted_content it.transcribed_text) = false) :
    processJob env st it =
      (Except.error ("Missing formatted_content for job " ++ it.id), st) ∧
    syncJobs env st (it :: rest) =
      (Except.error ("Missing formatted_content for job " ++ it.id), st) ∧
    ((processJob env st it).2).trace = st.trace := by
  have hp : processJob env st it =
      (Except.error ("Missing formatted_content for job " ++ it.id), st) := by
    unfold processJob
    cases ho : jsOrStr it.formatted_content it.transcribed_text with
    | none => rfl
    | some s =>
      rw [ho] at h
      have hs : s = "" := by
        by_contra hne
        simp [truthyS, hne] at h
      simp [hs]
  refine ⟨hp, ?_, by rw [hp]⟩
  unfold syncJobs
  rw [hp]

/-- Witness for `missingContentFailsFast` at a concrete empty-content job. -/
theorem missingContentFailsFast_witness :
    processJob envNull stEmpty
      { jobHello with id := "job9", formatted_content := none, transcribed_text := none } =
      (Except.error "Missing formatted_content for job job9", stEmpty) :=
  (missingContentFailsFast envNull stEmpty
    { jobHello with id := "job9", formatted_content := none, transcribed_text := none }
    [] rfl).1

/-! ## Claim C10: empty-string content is treated as missing -/

/-- C10: a job whose formatted content and transcribed text are both present
but empty aborts the cycle with exactly the same missing-content error and
unchanged state as a job with both fields absent: no note is written and no
acknowledgement is issued. -/
theorem emptyContentEqualsAbsent (env : Env) (st : St) (it : Job)
    (hf : it.formatted_content = some "") (ht : it.transcribed_text = some "") :
    processJob env st it =
      (Except.error ("Missing formatted_content for job " ++ it.id), st) ∧
    processJob env st { it with formatted_content := none, transcribed_text := none } =
      (Except.error ("Missing formatted_content for job " ++ it.id), st) := by
  constructor
  · unfold processJob
    simp [jsOrStr, truthyS, hf, ht]
  · unfold processJob
    simp [jsOrStr, truthyS]

/-- Witness for `emptyContentEqualsAbsent` at a concrete job. -/
theorem emptyContentEqualsAbsent_witness :
    processJob envNull stEmpty
      { jobHello with formatted_content := some "", transcribed_text := some "" } =
      (Except.error "Missing formatted_content for job job1", stEmpty) :=
  (emptyContentEqualsAbsent envNull stEmpty
    { jobHello with formatted_content := some "", transcribed_text := some "" } rfl rfl).1

/-! ## Claim C7: route cache hit / stale refresh -/

/-- A cached route whose destination is whitespace-only: non-empty, yet the
code treats it as stale. -/
def routeBlankDest : Route :=
  { destination_location := some " ", include_original_file := some false,
    append_to_existing := none }

/-- A state caching `routeBlankDest` under id `r1`. -/
def stBlankDest : St :=
  { vault := [], folders := [], routes := [("r1", routeBlankDest)], isSyncing := false,
    trace := [] }

/-- An environment whose remote route fetch answers `r1` with `routeInbox`. -/
def envRoute : Env :=
  { envNull with fetchRouteById := fun id => if id = "r1" then some routeInbox else none }

/-- C7 counterexample: the cached entry for `r1` has a concretely present
(non-empty) destination `" "` and a non-null include-original flag, yet route
resolution performs a remote fetch (a `fetchRoute` event) and returns the
fetched route instead of the cached entry unchanged — because the code treats
a whitespace-only destination as stale. -/
theorem staleWhitespaceDestStillFetches :
    (lookupBy stBlankDest.routes "r1" = some routeBlankDest ∧
      routeBlankDest.destination_location = some " " ∧ " " ≠ "" ∧
      routeBlankDest.include_original_file = some false) ∧
    (resolveRoute envRoute stBlankDest "r1").1 = Except.ok routeInbox ∧
    ((resolveRoute envRoute stBlankDest "r1").2).trace =
      [Ev.fetchRoute "r1", Ev.saveSettings] := by
  exact ⟨⟨rfl, rfl, by decide, rfl⟩, rfl, rfl⟩

/-- C7 (amended): a cached route entry with a non-blank (non-empty after
trimming) destination and a non-null include-original flag is used unchanged
with no events — no network access; otherwise, when the remote fetch finds the
route, exactly one route fetch is performed, the fetched route overwrites the
cache entry keyed by the route id, and the settings are persisted
(`saveSettings`) before delivery proceeds. -/
theorem routeCacheResolution (env : Env) (st : St) (routeId : String) :
    (∀ r d flag, lookupBy st.routes routeId = some r →
      r.destination_location = some d → jsTrim d ≠ "" →
      r.include_original_file = some flag →
      resolveRoute env st routeId = (Except.ok r, st)) ∧
    (∀ row, needsRefresh (lookupBy st.routes routeId) = true →
      env.fetchRouteById routeId = some row →
      (resolveRoute env st routeId).1 = Except.ok row ∧
      ((resolveRoute env st routeId).2).trace =
        st.trace ++ [Ev.fetchRoute routeId, Ev.saveSettings] ∧
      lookupBy ((resolveRoute env st routeId).2).routes routeId = some row ∧
      ((resolveRoute env st routeId).2).vault = st.vault) := by
  constructor
  · intro r d flag hc hd htrim hflag
    unfold resolveRoute
    rw [hc]
    have : needsRefresh (some r) = false := by
      simp [needsRefresh, hd, htrim, hflag]
    simp [this]
  · intro row hstale hfetch
    unfold resolveRoute
    cases hc : lookupBy st.routes routeId with
    | none =>
      simp only [hfetch]
      simp [emit, lookupBy_setBy_self]
    | some r =>
      rw [hc] at hstale
      simp only [hstale, if_true, hfetch]
      simp [emit, lookupBy_setBy_self]

/-- Witness for `routeCacheResolution`: a concrete cache hit and a concrete
stale refresh. -/
theorem routeCacheResolution_witness :
    resolveRoute envRoute
      { stEmpty with routes := [("r1", routeInbox)] } "r1" =
      (Except.ok routeInbox, { stEmpty with routes := [("r1", routeInbox)] }) ∧
    ((resolveRoute envRoute stEmpty "r1").2).trace =
      [Ev.fetchRoute "r1", Ev.saveSettings] :=
  ⟨(routeCacheResolution envRoute { stEmpty with routes := [("r1", routeInbox)] } "r1").1
      routeInbox "Inbox" false rfl rfl (by decide) rfl,
    ((routeCacheResolution envRoute stEmpty "r1").2 routeInbox rfl rfl).2.1⟩

/-! ## Trace extension -/

/-- A state whose trace extends another: only new events were appended. -/
def TraceExt (st st' : St) : Prop := ∃ Δ, st'.trace = st.trace ++ Δ

theorem TraceExt.rfl (st : St) : TraceExt st st := ⟨[], by simp⟩

theorem TraceExt.trans {s1 s2 s3 : St} (h1 : TraceExt s1 s2) (h2 : TraceExt s2 s3) :
    TraceExt s1 s3 := by
  obtain ⟨a, ha⟩ := h1
  obtain ⟨b, hb⟩ := h2
  exact ⟨a ++ b, by rw [hb, ha, List.append_assoc]⟩

theorem traceExt_emit (st : St) (e : Ev) : TraceExt st (emit st e) := ⟨[e], by simp [emit]⟩

theorem traceExt_putFile (st : St) (p c : String) : TraceExt st (putFile st p c) :=
  ⟨[], by simp [putFile]⟩

theorem traceExt_ensureFolder (st : St) (f : String) : TraceExt st (ensureFolder st f) :=
  ensureFolder_trace st f

theorem traceExt_atomicWrite (st : St) (p c : String) : TraceExt st (atomicWrite st p c) := by
  obtain ⟨Δ, hΔ⟩ := atomicWrite_trace st p c
  exact ⟨Δ ++ [Ev.writeFile (normalizePath p)], by rw [hΔ, List.append_assoc]⟩

theorem traceExt_writeBinaryToAttachments (env : Env) (st : St) (f : String)
    (b : Option String) : TraceExt st ((writeBinaryToAttachments env st f b).2) := by
  unfold writeBinaryToAttachments
  exact (traceExt_ensureFolder st _).trans ((traceExt_putFile _ _ _).trans (traceExt_emit _ _))

theorem traceExt_storagePart (env : Env) (st : St) (b n : String) :
    TraceExt st ((storagePart env st b n).2) := by
  unfold storagePart
  cases hd : env.storageDownload b n with
  | error e => simpa [hd] using traceExt_emit st (Ev.storageDownload b n)
  | ok v =>
    simp only [hd]
    exact (traceExt_emit _ _).trans (traceExt_writeBinaryToAttachments env _ _ _)

theorem traceExt_maybeDownloadOriginal (env : Env) (st : St) (it : Job) (b : Option String) :
    TraceExt st ((maybeDownloadOriginal env st it b).2) := by
  unfold maybeDownloadOriginal
  cases hu : (if truthyS it.original_file_url then ((none : Option (String × String)), it.original_file_url)
      else
        match it.meta_original_object with
        | some (b, n) =>
          if b ≠ "" ∧ n ≠ "" then (some (b, n), none)
          else if truthyS it.meta_original_file_url then (none, it.meta_original_file_url)
          else (none, none)
        | none =>
          if truthyS it.meta_original_file_url then (none, it.meta_original_file_url)
          else (none, none)).2 with
  | none =>
    simp only [hu]
    cases hb : (if truthyS it.original_file_url then ((none : Option (String × String)), it.original_file_url)
        else
          match it.meta_original_object with
          | some (b, n) =>
            if b ≠ "" ∧ n ≠ "" then (some (b, n), none)
            else if truthyS it.meta_original_file_url then (none, it.meta_original_file_url)
            else (none, none)
          | none =>
            if truthyS it.meta_original_file_url then (none, it.meta_original_file_url)
            else (none, none)).1 with
    | none => simpa [hb] using TraceExt.rfl st
    | some bn =>
      simp only [hb]
      exact traceExt_storagePart env st bn.1 bn.2
  | some u =>
    simp only [hu]
    cases hp : env.parseUrlPath (replaceFirst u "http://kong:8000" "http://127.0.0.1:54321") with
    | none => simpa [hp] using TraceExt.rfl st
    | some pathname =>
      simp only [hp]
      cases hm : storageMatch pathname with
      | some bn =>
        simp only [hm]
        exact traceExt_storagePart env st bn.1 bn.2
      | none =>
        simp only [hm]
        cases hg : env.httpGet (replaceFirst u "http://kong:8000" "http://127.0.0.1:54321") with
        | error e => simpa [hg] using traceExt_emit st _
        | ok v =>
          simp only [hg]
          exact (traceExt_emit _ _).trans (traceExt_writeBinaryToAttachments env _ _ _)

theorem traceExt_resolveRoute (env : Env) (st : St) (routeId : String) :
    TraceExt st ((resolveRoute env st routeId).2) := by
  unfold resolveRoute
  cases hc : lookupBy st.routes routeId with
  | none =>
    simp only
    cases hf : env.fetchRouteById routeId with
    | none => simpa [hf] using traceExt_emit st _
    | some row =>
      simp only [hf]
      exact ⟨[Ev.fetchRoute routeId, Ev.saveSettings], by simp [emit]⟩
  | some r =>
    by_cases hn : needsRefresh (some r)
    · simp only [hn, if_true]
      cases hf : env.fetchRouteById routeId with
      | none => simpa [hf] using traceExt_emit st _
      | some row =>
        simp only [hf]
        exact ⟨[Ev.fetchRoute routeId, Ev.saveSettings], by simp [emit]⟩
    · simpa [hn] using TraceExt.rfl st

theorem traceExt_ensureDestination (st : St) (dl : String) (ap : Bool) :
    TraceExt st (ensureDestination st dl ap) := by
  unfold ensureDestination
  cases ap with
  | true =>
    by_cases hp : parentOf dl ≠ ""
    · simpa [hp] using traceExt_ensureFolder st (parentOf dl)
    · simpa [hp] using TraceExt.rfl st
  | false => simpa using traceExt_ensureFolder st dl

theorem traceExt_attachmentBlock (env : Env) (st : St) (it : Job) (io : Bool) (df : String) :
    TraceExt st ((attachmentBlock env st it io df).2) := by
  unfold attachmentBlock
  cases io with
  | true =>
    simp only [if_pos rfl]
    cases hm : (maybeDownloadOriginal env st it (some df)).1 with
    | some ap => simpa [hm] using traceExt_maybeDownloadOriginal env st it (some df)
    | none => simpa [hm] using traceExt_maybeDownloadOriginal env st it (some df)
  | false => simpa using TraceExt.rfl st

theorem writeAppend_trace (st : St) (dl content : String) :
    ∃ Δ wEv, (((writeAppend st dl content).2).trace = st.trace ++ Δ ++ [wEv]) ∧
      (wEv = Ev.modifyFile (writeAppend st dl content).1 ∨
        wEv = Ev.writeFile (normalizePath (writeAppend st dl content).1)) := by
  cases hr : readFile st (appendFilePath dl) with
  | some existing =>
    have hwa : writeAppend st dl content =
        (appendFilePath dl,
          emit (putFile st (appendFilePath dl)
              (if existing ≠ "" then existing ++ "\n\n" ++ content else content))
            (Ev.modifyFile (appendFilePath dl))) := by
      unfold writeAppend
      rw [hr]
    refine ⟨[], Ev.modifyFile (appendFilePath dl), ?_, Or.inl (by rw [hwa])⟩
    rw [hwa]
    simp [emit, putFile]
  | none =>
    have hwa : writeAppend st dl content =
        (appendFilePath dl, atomicWrite st (appendFilePath dl) content) := by
      unfold writeAppend
      rw [hr]
    obtain ⟨Δ, hΔ⟩ := atomicWrite_trace st (appendFilePath dl) content
    refine ⟨Δ, Ev.writeFile (normalizePath (appendFilePath dl)), ?_, Or.inr (by rw [hwa])⟩
    rw [hwa]
    exact hΔ

theorem writeNewFile_trace (st : St) (it : Job) (dl content : String) :
    ∃ Δ, ((writeNewFile st it dl content).2).trace =
      st.trace ++ Δ ++ [Ev.writeFile (normalizePath (writeNewFile st it dl content).1)] := by
  unfold writeNewFile
  exact atomicWrite_trace st _ content

/-- Spine lemma: a successful `writeJobToVault` appends events to the trace
and its last event is the write of the returned path (a `modifyFile` of the
path in append mode, or a `writeFile` of its normalized form). -/
theorem writeJobToVault_ok_trace (env : Env) (st : St) (it : Job) (body p : String) (st₂ : St)
    (h : writeJobToVault env st it body = (Except.ok p, st₂)) :
    ∃ evs wEv, st₂.trace = st.trace ++ evs ++ [wEv] ∧
      (wEv = Ev.modifyFile p ∨ wEv = Ev.writeFile (normalizePath p)) := by
  unfold writeJobToVault at h
  cases hrid : it.route_id with
  | none => rw [hrid] at h; simp at h
  | some routeId =>
    rw [hrid] at h
    simp only at h
    have hres : TraceExt st ((resolveRoute env st routeId).2) :=
      traceExt_resolveRoute env st routeId
    rcases hrr : resolveRoute env st routeId with ⟨res, st₁⟩
    rw [hrr] at h hres
    cases res with
    | error e => simp at h
    | ok route =>
      simp only at h hres
      cases hdest : route.destination_location with
      | none => rw [hdest] at h; simp at h
      | some d =>
        rw [hdest] at h
        cases hinc : route.include_original_file with
        | none => rw [hinc] at h; simp at h
        | some io =>
          rw [hinc] at h
          simp only at h
          set dl := normalizePath (jsTrim d) with hdl
          set ap := decide (route.append_to_existing = some true) with hap
          set stE := ensureDestination st₁ dl ap with hstE
          have hE : TraceExt st stE :=
            hres.trans (traceExt_ensureDestination st₁ dl ap)
          set att := attachmentBlock env stE it io (destFolderOf dl ap) with hatt
          have hA : TraceExt st att.2 :=
            hE.trans (traceExt_attachmentBlock env stE it io (destFolderOf dl ap))
          cases hapv : ap with
          | true =>
            rw [hapv] at h
            simp only [if_pos rfl] at h
            obtain ⟨Δ, wEv, hΔ, hw⟩ :=
              writeAppend_trace att.2 dl (composeContent it body att.1 true)
            obtain ⟨Δ0, hΔ0⟩ := hA
            have hp1 : (writeAppend att.2 dl (composeContent it body att.1 true)).1 = p := by
              have := congrArg Prod.fst h
              simpa using this
            have hp2 : (writeAppend att.2 dl (composeContent it body att.1 true)).2 = st₂ := by
              have := congrArg Prod.snd h
              simpa using this
            refine ⟨Δ0 ++ Δ, wEv, ?_, ?_⟩
            · rw [← hp2, hΔ, hΔ0]
              simp
            · rw [← hp1]
              exact hw
          | false =>
            rw [hapv] at h
            simp only [Bool.false_eq_true, if_false] at h
            obtain ⟨Δ, hΔ⟩ :=
              writeNewFile_trace att.2 it dl (composeContent it body att.1 false)
            obtain ⟨Δ0, hΔ0⟩ := hA
            have hp1 : (writeNewFile att.2 it dl (composeContent it body att.1 false)).1 = p := by
              have := congrArg Prod.fst h
              simpa using this
            have hp2 : (writeNewFile att.2 it dl (composeContent it body att.1 false)).2 = st₂ := by
              have := congrArg Prod.snd h
              simpa using this
            refine ⟨Δ0 ++ Δ,
              Ev.writeFile (normalizePath (writeNewFile att.2 it dl (composeContent it body att.1 false)).1),
              ?_, ?_⟩
            · rw [← hp2, hΔ, hΔ0]
              simp
            · rw [hp1]
              exact Or.inr rfl

/-! ## Claim C1: the acknowledgement is conditional and final -/

/-- A state whose route cache already holds the fresh `routeInbox` for
`jobHello`. -/
def stInbox : St :=
  { vault := [], folders := [], routes := [("route1", routeInbox)], isSyncing := false,
    trace := [] }

/-- C1: for every job processed successfully in a sync cycle, the
acknowledgement request is the final event for that job — it follows the
event that wrote the job file — and it is the guarded update
`Ev.ack jobId "transcribed" url`, whose table semantics `ackStep` set the
status to "delivered" and record the destination URL only on rows whose id
matches and whose current status still equals the expected prior status
"transcribed", leaving every other row unchanged. -/
theorem ackGuardedAndFinal (env : Env) (st : St) (it : Job) (p : String) (st' : St)
    (h : processJob env st it = (Except.ok p, st')) :
    (∃ evs wEv, st'.trace = st.trace ++ evs ++
        [wEv, Ev.ack it.id "transcribed" (destinationUrlFor p)] ∧
      (wEv = Ev.modifyFile p ∨ wEv = Ev.writeFile (normalizePath p))) ∧
    (∀ j : Job, (j.id ≠ it.id ∨ j.status ≠ "transcribed") →
      ackStep it.id "transcribed" (destinationUrlFor p) j = j) ∧
    (∀ j : Job, j.id = it.id → j.status = "transcribed" →
      ackStep it.id "transcribed" (destinationUrlFor p) j =
        { j with status := "delivered", destination_url := some (destinationUrlFor p) }) := by
  refine ⟨?_, ?_, ?_⟩
  · unfold processJob at h
    cases hc : jsOrStr it.formatted_content it.transcribed_text with
    | none => rw [hc] at h; simp at h
    | some body =>
      rw [hc] at h
      by_cases hb : body = ""
      · simp [hb] at h
      · simp only [hb, if_false] at h
        rcases hw : writeJobToVault env st it body with ⟨res, st₂⟩
        rw [hw] at h
        cases res with
        | error e => simp at h
        | ok q =>
          simp only at h
          cases hack : env.ackErr it.id with
          | some e => rw [hack] at h; simp at h
          | none =>
            rw [hack] at h
            simp only [Prod.mk.injEq, Except.ok.injEq] at h
            obtain ⟨hqp, hst⟩ := h
            rw [hqp] at hw
            obtain ⟨evs, wEv, hΔ, hwe⟩ := writeJobToVault_ok_trace env st it body p st₂ hw
            refine ⟨evs, wEv, ?_, hwe⟩
            rw [← hst, hqp]
            simp [emit, hΔ]
  · intro j hj
    unfold ackStep
    rcases hj with hj | hj <;> simp [hj]
  · intro j h1 h2
    unfold ackStep
    simp [h1, h2]

/-- Witness for `ackGuardedAndFinal`: a concrete delivery of `jobHello`
through the cached `routeInbox`. -/
theorem ackGuardedAndFinal_witness :
    ∃ evs wEv, ((processJob envNull stInbox jobHello).2).trace =
        stInbox.trace ++ evs ++
          [wEv, Ev.ack "job1" "transcribed" (destinationUrlFor "Inbox/Hello.md")] ∧
      (wEv = Ev.modifyFile "Inbox/Hello.md" ∨
        wEv = Ev.writeFile (normalizePath "Inbox/Hello.md")) :=
  (ackGuardedAndFinal envNull stInbox jobHello "Inbox/Hello.md"
    ((processJob envNull stInbox jobHello).2) rfl).1

/-! ## Claim C8: append-mode structure -/

theorem stringAppendEmpty (s : String) : s ++ "" = s :=
  String.ext (by simp [String.data_append])

theorem ensureDestination_vault (st : St) (dl : String) (ap : Bool) :
    (ensureDestination st dl ap).vault = st.vault := by
  unfold ensureDestination
  cases ap with
  | true =>
    by_cases hp : parentOf dl ≠ ""
    · simp [hp, ensureFolder_vault]
    · simp [hp]
  | false => simp [ensureFolder_vault]

/-- A fresh cached route resolves without any event (cache hit). -/
theorem resolveRoute_hit (env : Env) (st : St) (routeId : String) (r : Route)
    (d : String) (flag : Bool)
    (hc : lookupBy st.routes routeId = some r)
    (hd : r.destination_location = some d) (htrim : jsTrim d ≠ "")
    (hflag : r.include_original_file = some flag) :
    resolveRoute env st routeId = (Except.ok r, st) := by
  unfold resolveRoute
  rw [hc]
  have : needsRefresh (some r) = false := by
    simp [needsRefresh, hd, htrim, hflag]
  simp [this]

/-- C8: in append mode with an existing nonempty destination file, the write
overwrites the destination with exactly
`existing ++ "\n\n" ++ "# <heading>" ++ "\n\n" ++ body` — single blank-line
separators, heading derived from the job title fallback chain
(`jobBaseTitle`/`appendSafeTitle`) — and the returned path is the (normalized)
configured destination path itself, never a conflict-renamed one. -/
theorem appendModeStructure (env : Env) (st : St) (it : Job) (body : String)
    (routeId : String) (r : Route) (d existing : String)
    (hrid : it.route_id = some routeId)
    (hc : lookupBy st.routes routeId = some r)
    (hd : r.destination_location = some d)
    (htrim : jsTrim d ≠ "")
    (hinc : r.include_original_file = some false)
    (hap : r.append_to_existing = some true)
    (hmd : jsEndsWith (normalizePath (jsTrim d)) ".md" = true)
    (hread : readFile st (normalizePath (jsTrim d)) = some existing)
    (hne : existing ≠ "") :
    ∃ stF, writeJobToVault env st it body = (Except.ok (normalizePath (jsTrim d)), stF) ∧
      readFile stF (normalizePath (jsTrim d)) =
        some (existing ++ "\n\n" ++
          ("# " ++ appendSafeTitle (jobBaseTitle it) ++ "\n\n" ++ body)) := by
  have hdl : appendFilePath (normalizePath (jsTrim d)) = normalizePath (jsTrim d) := by
    simp [appendFilePath, hmd]
  have hveq : readFile (ensureDestination st (normalizePath (jsTrim d)) true)
      (normalizePath (jsTrim d)) = some existing := by
    unfold readFile at hread ⊢
    rw [ensureDestination_vault]
    exact hread
  have hwa : writeAppend (ensureDestination st (normalizePath (jsTrim d)) true)
      (normalizePath (jsTrim d)) (composeContent it body "" true) =
      (normalizePath (jsTrim d),
        emit (putFile (ensureDestination st (normalizePath (jsTrim d)) true)
            (normalizePath (jsTrim d))
            (existing ++ "\n\n" ++ composeContent it body "" true))
          (Ev.modifyFile (normalizePath (jsTrim d)))) := by
    unfold writeAppend
    rw [hdl, hveq]
    simp [hne]
  have hmain : writeJobToVault env st it body =
      (Except.ok (normalizePath (jsTrim d)),
        emit (putFile (ensureDestination st (normalizePath (jsTrim d)) true)
            (normalizePath (jsTrim d))
            (existing ++ "\n\n" ++ composeContent it body "" true))
          (Ev.modifyFile (normalizePath (jsTrim d)))) := by
    unfold writeJobToVault
    rw [hrid]
    simp only
    rw [resolveRoute_hit env st routeId r d false hc hd htrim hinc]
    simp only
    rw [hd]
    simp only
    rw [hinc]
    simp only [hap, decide_eq_true_eq, if_pos rfl]
    have hab : attachmentBlock env (ensureDestination st (normalizePath (jsTrim d)) true) it false
        (destFolderOf (normalizePath (jsTrim d)) true) =
        ("", ensureDestination st (normalizePath (jsTrim d)) true) := by
      simp [attachmentBlock]
    simp only [decide_True, hab, hwa]
    simp
  refine ⟨_, hmain, ?_⟩
  simp [readFile_emit, readFile_putFile_self, composeContent, stringAppendEmpty]

/-- An append-mode route into the existing file `Daily/log.md`. -/
def routeDaily : Route :=
  { destination_location := some "Daily/log.md", include_original_file := some false,
    append_to_existing := some true }

/-- A vault already holding `Daily/log.md` with content `"existing"` and the
cached `routeDaily`. -/
def stDaily : St :=
  { vault := [("Daily/log.md", "existing")], folders := ["Daily"],
    routes := [("route1", routeDaily)], isSyncing := false, trace := [] }

/-- Witness for `appendModeStructure`: appending `"new"` to a file containing
`"existing"` yields exactly `"existing\n\n# Hello\n\nnew"` at the configured
destination path. -/
theorem appendModeStructure_witness :
    ∃ stF, writeJobToVault envNull stDaily jobHello "new" =
        (Except.ok "Daily/log.md", stF) ∧
      readFile stF "Daily/log.md" = some "existing\n\n# Hello\n\nnew" :=
  appendModeStructure envNull stDaily jobHello "new" "route1" routeDaily "Daily/log.md"
    "existing" rfl rfl rfl (by decide) rfl rfl (by decide) rfl (by decide)

/-! ## Claim C6: attachment failure is non-fatal -/

/-- The new-file write leaves exactly the composed content at the
(normalized) returned path. -/
theorem writeNewFile_readFile (st : St) (it : Job) (dl c : String) :
    readFile ((writeNewFile st it dl c).2) (normalizePath ((writeNewFile st it dl c).1)) =
      some c := by
  unfold writeNewFile
  exact atomicWrite_readFile_self st _ c

/-- C6: on a route whose include-original flag is true (new-file mode), when
the storage download of the original file fails, `writeJobToVault` still
succeeds and the note content is exactly the job body with no embedded
attachment reference; the error never escapes, and the job is still
acknowledged as delivered (the `ack` event follows as the final step of
`processJob`). -/
theorem attachmentFailureNonFatal (env : Env) (st : St) (it : Job) (body : String)
    (routeId : String) (r : Route) (d b n err : String)
    (hrid : it.route_id = some routeId)
    (hc : lookupBy st.routes routeId = some r)
    (hd : r.destination_location = some d)
    (htrim : jsTrim d ≠ "")
    (hinc : r.include_original_file = some true)
    (hapn : r.append_to_existing ≠ some true)
    (hsrc : it.original_file_url = none)
    (hobj : it.meta_original_object = some (b, n))
    (hbn : b ≠ "" ∧ n ≠ "")
    (hfail : env.storageDownload b n = Except.error err)
    (hfc : it.formatted_content = some body)
    (hbody : body ≠ "")
    (hackok : env.ackErr it.id = none) :
    ∃ p stF, writeJobToVault env st it body = (Except.ok p, stF) ∧
      readFile stF (normalizePath p) = some body ∧
      processJob env st it =
        (Except.ok p, emit stF (Ev.ack it.id "transcribed" (destinationUrlFor p))) := by
  have hapf : decide (r.append_to_existing = some true) = false := by
    simp [hapn]
  have hcc : composeContent it body "" false = body := by
    simp [composeContent, stringAppendEmpty]
  have hmdl : ∀ st1 : St, maybeDownloadOriginal env st1 it
      (some (destFolderOf (normalizePath (jsTrim d)) false)) =
      (none, emit st1 (Ev.storageDownload b n)) := by
    intro st1
    unfold maybeDownloadOriginal
    simp only [hsrc, hobj, truthyS]
    simp only [hbn.1, hbn.2, ne_eq, not_false_eq_true, and_self, if_true]
    simp only [Bool.false_eq_true, if_false]
    unfold storagePart
    rw [hfail]
  have hab : attachmentBlock env (ensureDestination st (normalizePath (jsTrim d)) false) it true
      (destFolderOf (normalizePath (jsTrim d)) false) =
      ("", emit (ensureDestination st (normalizePath (jsTrim d)) false)
        (Ev.storageDownload b n)) := by
    simp [attachmentBlock, hmdl]
  have hmain : writeJobToVault env st it body =
      (Except.ok ((writeNewFile
          (emit (ensureDestination st (normalizePath (jsTrim d)) false) (Ev.storageDownload b n))
          it (normalizePath (jsTrim d)) (composeContent it body "" false)).1),
        (writeNewFile
          (emit (ensureDestination st (normalizePath (jsTrim d)) false) (Ev.storageDownload b n))
          it (normalizePath (jsTrim d)) (composeContent it body "" false)).2) := by
    unfold writeJobToVault
    rw [hrid]
    simp only
    rw [resolveRoute_hit env st routeId r d true hc hd htrim hinc]
    simp only
    rw [hd]
    simp only
    rw [hinc]
    simp only [hapf, hab]
    simp
  refine ⟨_, _, hmain, ?_, ?_⟩
  · have hrf := writeNewFile_readFile
      (emit (ensureDestination st (normalizePath (jsTrim d)) false) (Ev.storageDownload b n))
      it (normalizePath (jsTrim d)) (composeContent it body "" false)
    simpa only [hcc] using hrf
  · unfold processJob
    have hjs : jsOrStr it.formatted_content it.transcribed_text = some body := by
      simp [jsOrStr, hfc, truthyS, hbody]
    rw [hjs]
    simp only [hbody, if_false]
    rw [hmain]
    simp only
    rw [hackok]

/-- A new-file-mode route with the include-original flag set. -/
def routeAttach : Route :=
  { destination_location := some "Inbox", include_original_file := some true,
    append_to_existing := none }

/-- A state caching `routeAttach`. -/
def stAttach : St :=
  { vault := [], folders := [], routes := [("route1", routeAttach)], isSyncing := false,
    trace := [] }

/-- `jobHello` with a storage-object attachment source in its metadata. -/
def jobAttach : Job :=
  { jobHello with meta_original_object := some ("media", "orig/voice.m4a") }

/-- Witness for `attachmentFailureNonFatal`: `envNull` fails every storage
download, yet the note is written with the bare body and the job is
acknowledged. -/
theorem attachmentFailureNonFatal_witness :
    ∃ p stF, writeJobToVault envNull stAttach jobAttach "content" = (Except.ok p, stF) ∧
      readFile stF (normalizePath p) = some "content" ∧
      processJob envNull stAttach jobAttach =
        (Except.ok p, emit stF (Ev.ack "job1" "transcribed" (destinationUrlFor p))) :=
  attachmentFailureNonFatal envNull stAttach jobAttach "content" "route1" routeAttach
    "Inbox" "media" "orig/voice.m4a" "offline" rfl rfl rfl (by decide) rfl (by decide)
    rfl rfl (by decide) rfl rfl (by decide) rfl

/-! ## Claim C4: conflict-safe naming -/


/-- Value of a little-endian digit list. -/
def unDigits : List Nat → Nat
  | [] => 0
  | d :: ds => d + 10 * unDigits ds

theorem unDigits_natDigitsRev : ∀ fuel n, n ≤ fuel → unDigits (natDigitsRev fuel n) = n := by
  intro fuel
  induction fuel with
  | zero =>
    intro n hn
    have : n = 0 := by omega
    simp [this, natDigitsRev, unDigits]
  | succ f ih =>
    intro n hn
    by_cases h0 : n = 0
    · simp [natDigitsRev, h0, unDigits]
    · simp only [natDigitsRev, h0, if_false, unDigits]
      have hlt : n / 10 < n := Nat.div_lt_self (Nat.pos_of_ne_zero h0) (by omega)
      rw [ih (n / 10) (by omega)]
      omega

theorem natDigitsRev_lt : ∀ fuel n d, d ∈ natDigitsRev fuel n → d < 10 := by
  intro fuel
  induction fuel with
  | zero => intro n d hd; simp [natDigitsRev] at hd
  | succ f ih =>
    intro n d hd
    by_cases h0 : n = 0
    · simp [natDigitsRev, h0] at hd
    · simp only [natDigitsRev, h0, if_false, List.mem_cons] at hd
      rcases hd with hd | hd
      · rw [hd]; exact Nat.mod_lt n (by omega)
      · exact ih _ _ hd

theorem digitChar_inj_lt : ∀ a, a < 10 → ∀ b, b < 10 → Nat.digitChar a = Nat.digitChar b → a = b := by
  decide

theorem map_digitChar_inj : ∀ a b : List Nat, (∀ x ∈ a, x < 10) → (∀ x ∈ b, x < 10) →
    a.map Nat.digitChar = b.map Nat.digitChar → a = b := by
  intro a
  induction a with
  | nil => intro b _ _ h; cases b with | nil => rfl | cons x xs => simp at h
  | cons x xs ih =>
    intro b ha hb h
    cases b with
    | nil => simp at h
    | cons y ys =>
      simp only [List.map_cons, List.cons.injEq] at h
      have hx := digitChar_inj_lt x (ha x (by simp)) y (hb y (by simp)) h.1
      rw [hx, ih ys (fun z hz => ha z (by simp [hz])) (fun z hz => hb z (by simp [hz])) h.2]

theorem natRepr_inj (m n : Nat) (hm : 1 ≤ m) (hn : 1 ≤ n) (h : natRepr m = natRepr n) :
    m = n := by
  unfold natRepr at h
  have hm0 : m ≠ 0 := by omega
  have hn0 : n ≠ 0 := by omega
  simp only [hm0, hn0, if_false] at h
  have hdata := congrArg String.data h
  simp only at hdata
  have h1 : (natDigitsRev m m).reverse = (natDigitsRev n n).reverse :=
    map_digitChar_inj _ _ (fun x hx => natDigitsRev_lt m m x (List.mem_reverse.mp hx))
      (fun x hx => natDigitsRev_lt n n x (List.mem_reverse.mp hx)) hdata
  have h2 : natDigitsRev m m = natDigitsRev n n := List.reverse_inj.mp h1
  calc m = unDigits (natDigitsRev m m) := (unDigits_natDigitsRev m m le_rfl).symm
    _ = unDigits (natDigitsRev n n) := by rw [h2]
    _ = n := unDigits_natDigitsRev n n le_rfl

theorem searchFree_spec (ex : String → Bool) (cand : Nat → String) :
    ∀ fuel i, (∃ k, k < fuel ∧ ex (cand (i + k)) = false) →
    ∃ k, k < fuel ∧ searchFree ex cand fuel i = cand (i + k) ∧ ex (cand (i + k)) = false ∧
      ∀ m, m < k → ex (cand (i + m)) = true := by
  intro fuel
  induction fuel with
  | zero =>
    intro i h
    obtain ⟨k, hk, _⟩ := h
    omega
  | succ f ih =>
    intro i h
    obtain ⟨k, hk, hfree⟩ := h
    by_cases h0 : ex (cand i) = false
    · refine ⟨0, by omega, ?_, by simpa using h0, by omega⟩
      simp [searchFree, h0]
    · have h0' : ex (cand i) = true := by
        cases hx : ex (cand i)
        · exact absurd hx h0
        · rfl
      have hk0 : k ≠ 0 := by
        intro he
        rw [he, Nat.add_zero] at hfree
        rw [hfree] at h0'
        exact Bool.noConfusion h0'
      have hshift : i + 1 + (k - 1) = i + k := by omega
      obtain ⟨k', hk', hs, hf, hmin⟩ := ih (i + 1) ⟨k - 1, by omega, by rw [hshift]; exact hfree⟩
      have heq : searchFree ex cand (f + 1) i = searchFree ex cand f (i + 1) := by
        simp [searchFree, h0']
      have hidx : i + 1 + k' = i + (k' + 1) := by omega
      refine ⟨k' + 1, by omega, ?_, ?_, ?_⟩
      · rw [heq, hs, hidx]
      · rw [← hidx]; exact hf
      · intro m hm
        cases m with
        | zero => simpa using h0'
        | succ m' =>
          have : i + 1 + m' = i + (m' + 1) := by omega
          rw [← this]
          exact hmin m' (by omega)

theorem exists_free (L : List String) (cand : Nat → String)
    (hinj : ∀ a b, cand (1 + a) = cand (1 + b) → a = b) :
    ∃ k, k < L.length + 1 ∧ cand (1 + k) ∉ L := by
  by_contra hall
  push_neg at hall
  have hinj2 : Function.Injective (fun t : Fin (L.length + 1) => cand (1 + t.1)) := by
    intro a b hab
    exact Fin.ext (hinj a.1 b.1 hab)
  have hsub : (Finset.univ.image (fun t : Fin (L.length + 1) => cand (1 + t.1))) ⊆
      L.toFinset := by
    intro x hx
    simp only [Finset.mem_image, Finset.mem_univ, true_and] at hx
    obtain ⟨a, ha⟩ := hx
    rw [← ha]
    exact List.mem_toFinset.mpr (hall a a.2)
  have hcard := Finset.card_le_card hsub
  rw [Finset.card_image_of_injective _ hinj2, Finset.card_univ, Fintype.card_fin] at hcard
  have := List.toFinset_card_le L
  omega

/-- The paths that exist in a state, as a list. -/
def allPaths (st : St) : List String := st.vault.map Prod.fst ++ st.folders

theorem lookupBy_isSome_iff {α : Type} (l : List (String × α)) (k : String) :
    (lookupBy l k).isSome = true ↔ k ∈ l.map Prod.fst := by
  induction l with
  | nil => simp [lookupBy]
  | cons e rest ih =>
    by_cases h : e.1 = k
    · simp [lookupBy, h]
    · simp only [lookupBy, h, if_false, List.map_cons, List.mem_cons]
      rw [ih]
      constructor
      · intro hm; exact Or.inr hm
      · intro hm
        rcases hm with hm | hm
        · exact absurd hm.symm h
        · exact hm

theorem existsPath_iff_mem (st : St) (p : String) :
    existsPath st p = true ↔ p ∈ allPaths st := by
  unfold existsPath allPaths
  rw [Bool.or_eq_true, List.mem_append, lookupBy_isSome_iff]
  constructor
  · intro h
    rcases h with h | h
    · exact Or.inl h
    · exact Or.inr (by simpa using h)
  · intro h
    rcases h with h | h
    · exact Or.inl h
    · exact Or.inr (by simpa using h)

theorem probeFuel_eq (st : St) : probeFuel st = (allPaths st).length + 1 := by
  simp [probeFuel, allPaths]

theorem string_mid_inj (a b x y : String) (h : a ++ x ++ b = a ++ y ++ b) : x = y := by
  have hd := congrArg String.data h
  simp only [String.data_append] at hd
  rw [List.append_assoc, List.append_assoc] at hd
  have h1 := List.append_cancel_left hd
  exact String.ext (List.append_cancel_right h1)

theorem numberedCand_inj (base ext : String) (i j : Nat) (hi : 1 ≤ i) (hj : 1 ≤ j)
    (h : numberedCand base ext i = numberedCand base ext j) : i = j := by
  unfold numberedCand at h
  have h2 : (base ++ " ") ++ natRepr i ++ ext = (base ++ " ") ++ natRepr j ++ ext := by
    rw [show (base ++ " ") ++ natRepr i ++ ext = base ++ " " ++ natRepr i ++ ext by
      simp [String.append_assoc]]
    rw [show (base ++ " ") ++ natRepr j ++ ext = base ++ " " ++ natRepr j ++ ext by
      simp [String.append_assoc]]
    exact h
  exact natRepr_inj i j hi hj (string_mid_inj (base ++ " ") ext _ _ h2)

theorem resolveConflict_spec (st : St) (target : String) :
    (existsPath st target = false → resolveConflictPath st target = target) ∧
    (existsPath st target = true →
      ∃ i, 1 ≤ i ∧
        resolveConflictPath st target =
          numberedCand (splitLastDot target).1 (splitLastDot target).2 i ∧
        existsPath st (numberedCand (splitLastDot target).1 (splitLastDot target).2 i) = false ∧
        ∀ j, 1 ≤ j → j < i →
          existsPath st (numberedCand (splitLastDot target).1 (splitLastDot target).2 j) = true) := by
  constructor
  · intro hex
    simp [resolveConflictPath, hex]
  · intro hex
    obtain ⟨k, hk, hfree⟩ := exists_free (allPaths st)
      (numberedCand (splitLastDot target).1 (splitLastDot target).2)
      (fun a b hab => by
        have := numberedCand_inj (splitLastDot target).1 (splitLastDot target).2
          (1 + a) (1 + b) (by omega) (by omega) hab
        omega)
    have hfree' : existsPath st
        (numberedCand (splitLastDot target).1 (splitLastDot target).2 (1 + k)) = false := by
      cases hx : existsPath st
          (numberedCand (splitLastDot target).1 (splitLastDot target).2 (1 + k))
      · rfl
      · exact absurd ((existsPath_iff_mem st _).mp hx) hfree
    obtain ⟨k', hk', hs, hf, hmin⟩ := searchFree_spec (existsPath st)
      (numberedCand (splitLastDot target).1 (splitLastDot target).2) (probeFuel st) 1
      ⟨k, by rw [probeFuel_eq]; omega, hfree'⟩
    refine ⟨1 + k', by omega, ?_, hf, ?_⟩
    · rw [← hs]
      simp [resolveConflictPath, hex]
    · intro j hj1 hj2
      have hrw : 1 + (j - 1) = j := by omega
      have := hmin (j - 1) (by omega)
      rw [hrw] at this
      exact this

theorem map_bsl_id (l : List Char) (h : ∀ c ∈ l, c ≠ '\\') :
    l.map (fun c => if c = '\\' then '/' else c) = l := by
  induction l with
  | nil => rfl
  | cons c rest ih =>
    simp only [List.map_cons]
    rw [if_neg (h c (by simp)), ih (fun x hx => h x (by simp [hx]))]

theorem dropWhile_slash_id (l : List Char) (h : l.head? ≠ some '/') :
    l.dropWhile (fun c => c = '/') = l := by
  cases l with
  | nil => rfl
  | cons c rest =>
    have hc : c ≠ '/' := by
      intro he
      exact h (by simp [he])
    simp [List.dropWhile_cons, hc]

theorem collapseSlashes_id : ∀ l : List Char, noDoubleSlash l = true →
    l.getLast? ≠ some '/' → collapseSlashes l = l := by
  intro l
  induction l with
  | nil => intro _ _; rfl
  | cons a rest ih =>
    intro hnd hl
    cases rest with
    | nil =>
      have ha : a ≠ '/' := by
        intro he
        exact hl (by simp [he])
      simp [collapseSlashes, ha]
    | cons b rest2 =>
      have hnd2 : noDoubleSlash (b :: rest2) = true := by
        have := hnd
        simp only [noDoubleSlash, Bool.and_eq_true] at this
        exact this.2
      have hab : ¬(a = '/' ∧ b = '/') := by
        have := hnd
        simp only [noDoubleSlash, Bool.and_eq_true, Bool.not_eq_true'] at this
        intro hcon
        rcases this with ⟨h1, _⟩
        simp [hcon.1, hcon.2] at h1
      have hl2 : (b :: rest2).getLast? ≠ some '/' := by
        rwa [List.getLast?_cons_cons] at hl
      simp only [collapseSlashes, if_neg hab]
      rw [ih hnd2 hl2]

theorem normalizePath_id (p : String) (h : wellFormedPath p = true) : normalizePath p = p := by
  unfold wellFormedPath at h
  simp only [Bool.and_eq_true, decide_eq_true_eq, List.all_eq_true] at h
  obtain ⟨⟨⟨⟨hne, hbsl⟩, hhead⟩, hlast⟩, hnd⟩ := h
  unfold normalizePath
  rw [map_bsl_id _ (fun c hc => hbsl c hc)]
  rw [dropWhile_slash_id _ hhead]
  rw [collapseSlashes_id _ hnd hlast]

theorem noDoubleSlash_of_all_ne : ∀ l : List Char, (∀ c ∈ l, c ≠ '/') →
    noDoubleSlash l = true := by
  intro l
  induction l with
  | nil => intro _; rfl
  | cons a rest ih =>
    intro h
    cases rest with
    | nil => rfl
    | cons b rest2 =>
      simp only [noDoubleSlash, Bool.and_eq_true]
      refine ⟨?_, ih (fun c hc => h c (by simp [List.mem_cons] at hc ⊢; tauto))⟩
      have hb : b ≠ '/' := h b (by simp)
      simp [hb]

theorem noDoubleSlash_slash_cons (l : List Char) (h : ∀ c ∈ l, c ≠ '/') :
    noDoubleSlash ('/' :: l) = true := by
  cases l with
  | nil => rfl
  | cons b rest =>
    simp only [noDoubleSlash, Bool.and_eq_true]
    refine ⟨?_, noDoubleSlash_of_all_ne _ h⟩
    have hb : b ≠ '/' := h b (by simp)
    simp [hb]

theorem noDoubleSlash_append_sep : ∀ xs : List Char, noDoubleSlash xs = true →
    xs.getLast? ≠ some '/' → ∀ ys : List Char, (∀ c ∈ ys, c ≠ '/') →
    noDoubleSlash (xs ++ '/' :: ys) = true := by
  intro xs
  induction xs with
  | nil =>
    intro _ _ ys hys
    simpa using noDoubleSlash_slash_cons ys hys
  | cons a rest ih =>
    intro hnd hl ys hys
    cases rest with
    | nil =>
      have ha : a ≠ '/' := by
        intro he
        exact hl (by simp [he])
      simp only [List.cons_append, List.nil_append, noDoubleSlash, Bool.and_eq_true]
      exact ⟨by simp [ha], noDoubleSlash_slash_cons ys hys⟩
    | cons b rest2 =>
      have hnd2 : noDoubleSlash (b :: rest2) = true := by
        have := hnd
        simp only [noDoubleSlash, Bool.and_eq_true] at this
        exact this.2
      have hab : ¬(a = '/' ∧ b = '/') := by
        have := hnd
        simp only [noDoubleSlash, Bool.and_eq_true, Bool.not_eq_true'] at this
        intro hcon
        rcases this with ⟨h1, _⟩
        simp [hcon.1, hcon.2] at h1
      have hl2 : (b :: rest2).getLast? ≠ some '/' := by
        rwa [List.getLast?_cons_cons] at hl
      have := ih hnd2 hl2 ys hys
      simp only [List.cons_append] at this ⊢
      simp only [noDoubleSlash, Bool.and_eq_true]
      constructor
      · simp only [Bool.not_eq_true', Bool.and_eq_false_iff, decide_eq_false_iff_not]
        by_cases hx : a = '/'
        · exact Or.inr (fun hy => hab ⟨hx, hy⟩)
        · exact Or.inl hx
      · exact this

theorem getLast?_mem' : ∀ (l : List Char) (c : Char), l.getLast? = some c → c ∈ l := by
  intro l
  induction l with
  | nil => intro c h; simp at h
  | cons a rest ih =>
    intro c h
    cases rest with
    | nil =>
      simp only [List.getLast?_singleton, Option.some.injEq] at h
      simp [h]
    | cons b rest2 =>
      rw [List.getLast?_cons_cons] at h
      exact List.mem_cons_of_mem a (ih c h)

theorem wellFormedPath_concat (folder name : String)
    (hf : wellFormedPath folder = true) (hn : wellFormedSeg name = true) :
    wellFormedPath (folder ++ "/" ++ name) = true := by
  unfold wellFormedPath at hf ⊢
  unfold wellFormedSeg at hn
  simp only [Bool.and_eq_true, decide_eq_true_eq, List.all_eq_true] at hf hn ⊢
  obtain ⟨⟨⟨⟨hne, hbsl⟩, hhead⟩, hlast⟩, hnd⟩ := hf
  obtain ⟨hne2, hchars⟩ := hn
  have hdata : (folder ++ "/" ++ name).data = folder.data ++ '/' :: name.data := by
    simp [String.data_append]
  refine ⟨⟨⟨⟨?_, ?_⟩, ?_⟩, ?_⟩, ?_⟩
  · rw [hdata]; simp
  · rw [hdata]
    intro c hc
    rcases List.mem_append.mp hc with hc | hc
    · exact hbsl c hc
    · rcases List.mem_cons.mp hc with hc | hc
      · rw [hc]; decide
      · have hx : c ≠ '/' ∧ c ≠ '\\' := by simpa using hchars c hc
        exact hx.2
  · rw [hdata]
    cases hfd : folder.data with
    | nil => exact absurd hfd hne
    | cons a t =>
      rw [hfd] at hhead
      simpa using (by simpa using hhead : ¬a = '/')
  · rw [hdata]
    rw [List.getLast?_append_cons]
    cases hnd2 : name.data with
    | nil => exact absurd hnd2 hne2
    | cons b t =>
      rw [List.getLast?_cons_cons]
      intro hcon
      have hb := getLast?_mem' (b :: t) '/' hcon
      rw [← hnd2] at hb
      have hx : ('/' : Char) ≠ '/' ∧ ('/' : Char) ≠ '\\' := by simpa using hchars '/' hb
      exact hx.1 rfl
  · rw [hdata]
    refine noDoubleSlash_append_sep folder.data hnd hlast name.data ?_
    intro c hc
    have hx : c ≠ '/' ∧ c ≠ '\\' := by simpa using hchars c hc
    exact hx.1

theorem digitChar_not_sep : ∀ d, d < 10 → Nat.digitChar d ≠ '/' ∧ Nat.digitChar d ≠ '\\' := by
  decide

theorem natRepr_chars (n : Nat) : ∀ c ∈ (natRepr n).data, c ≠ '/' ∧ c ≠ '\\' := by
  unfold natRepr
  by_cases h0 : n = 0
  · simp only [h0, if_true]
    intro c hc
    have : c = '0' := by simpa using hc
    rw [this]
    decide
  · simp only [h0, if_false]
    intro c hc
    simp only [List.mem_map] at hc
    obtain ⟨d, hd, hdc⟩ := hc
    rw [← hdc]
    exact digitChar_not_sep d (natDigitsRev_lt n n d (List.mem_reverse.mp hd))

theorem wellFormedSeg_numberedCand (base ext : String) (i : Nat)
    (hb : ∀ c ∈ base.data, c ≠ '/' ∧ c ≠ '\\') (he : ∀ c ∈ ext.data, c ≠ '/' ∧ c ≠ '\\') :
    wellFormedSeg (numberedCand base ext i) = true := by
  unfold wellFormedSeg numberedCand
  simp only [Bool.and_eq_true, decide_eq_true_eq, List.all_eq_true, String.data_append]
  constructor
  · simp
  · intro c hc
    simp only [List.mem_append] at hc
    rcases hc with ((hc | hc) | hc) | hc
    · exact by simpa using hb c hc
    · have : c = ' ' := by simpa using hc
      rw [this]; exact ⟨by decide, by decide⟩
    · exact by simpa using natRepr_chars i c hc
    · exact by simpa using he c hc

theorem string_left_cancel (a x y : String) (h : a ++ x = a ++ y) : x = y := by
  have hd : a.data ++ x.data = a.data ++ y.data := by
    simpa [String.data_append] using congrArg String.data h
  exact String.ext (List.append_cancel_left hd)

theorem makePath_id (folder name : String) (hf : wellFormedPath folder = true)
    (hn : wellFormedSeg name = true) : makePath folder name = folder ++ "/" ++ name :=
  normalizePath_id _ (wellFormedPath_concat folder name hf hn)

theorem splitLastDot_chars (f : String) (P : Char → Prop) (h : ∀ c ∈ f.data, P c) :
    (∀ c ∈ (splitLastDot f).1.data, P c) ∧ (∀ c ∈ (splitLastDot f).2.data, P c) := by
  unfold splitLastDot
  cases hp : lastDotPos f.data with
  | some k =>
    simp only
    exact ⟨fun c hc => h c (List.take_subset k f.data hc),
      fun c hc => h c (List.drop_subset k f.data hc)⟩
  | none =>
    simp only
    exact ⟨h, by intro c hc; simp at hc⟩

theorem chooseAttachmentName_spec (st : St) (folder filename : String)
    (hf : wellFormedPath folder = true) (hn : wellFormedSeg filename = true) :
    (existsPath st (makePath folder filename) = false →
      chooseAttachmentName st folder filename = filename) ∧
    (existsPath st (makePath folder filename) = true →
      ∃ i, 1 ≤ i ∧
        chooseAttachmentName st folder filename =
          numberedCand (splitLastDot filename).1 (splitLastDot filename).2 i ∧
        existsPath st (makePath folder
          (numberedCand (splitLastDot filename).1 (splitLastDot filename).2 i)) = false ∧
        ∀ j, 1 ≤ j → j < i → existsPath st (makePath folder
          (numberedCand (splitLastDot filename).1 (splitLastDot filename).2 j)) = true) := by
  have hchars : ∀ c ∈ filename.data, c ≠ '/' ∧ c ≠ '\\' := by
    have := hn
    unfold wellFormedSeg at this
    simp only [Bool.and_eq_true, decide_eq_true_eq, List.all_eq_true] at this
    exact fun c hc => by simpa using this.2 c hc
  obtain ⟨hb, he⟩ := splitLastDot_chars filename (fun c => c ≠ '/' ∧ c ≠ '\\') hchars
  have hseg : ∀ i, wellFormedSeg
      (numberedCand (splitLastDot filename).1 (splitLastDot filename).2 i) = true :=
    fun i => wellFormedSeg_numberedCand _ _ i hb he
  constructor
  · intro hex
    simp [chooseAttachmentName, hex]
  · intro hex
    obtain ⟨k, hk, hfree⟩ := exists_free (allPaths st)
      (fun t => makePath folder
        (numberedCand (splitLastDot filename).1 (splitLastDot filename).2 t))
      (fun a b hab => by
        have hab2 : makePath folder
            (numberedCand (splitLastDot filename).1 (splitLastDot filename).2 (1 + a)) =
            makePath folder
            (numberedCand (splitLastDot filename).1 (splitLastDot filename).2 (1 + b)) := hab
        rw [makePath_id folder _ hf (hseg (1 + a)), makePath_id folder _ hf (hseg (1 + b))] at hab2
        have hcc := string_left_cancel (folder ++ "/") _ _ (by
          simpa [String.append_assoc] using hab2)
        have := numberedCand_inj (splitLastDot filename).1 (splitLastDot filename).2
          (1 + a) (1 + b) (by omega) (by omega) hcc
        omega)
    have hfree' : existsPath st (makePath folder
        (numberedCand (splitLastDot filename).1 (splitLastDot filename).2 (1 + k))) = false := by
      cases hx : existsPath st (makePath folder
          (numberedCand (splitLastDot filename).1 (splitLastDot filename).2 (1 + k)))
      · rfl
      · exact absurd ((existsPath_iff_mem st _).mp hx) hfree
    obtain ⟨k', hk', hs, hfr, hmin⟩ := searchFree_spec
      (fun nm => existsPath st (makePath folder nm))
      (numberedCand (splitLastDot filename).1 (splitLastDot filename).2) (probeFuel st) 1
      ⟨k, by rw [probeFuel_eq]; omega, hfree'⟩
    refine ⟨1 + k', by omega, ?_, hfr, ?_⟩
    · rw [← hs]
      simp [chooseAttachmentName, hex]
    · intro j hj1 hj2
      have hrw : 1 + (j - 1) = j := by omega
      have := hmin (j - 1) (by omega)
      rw [hrw] at this
      exact this

/-- A vault already holding `Hello.md`. -/
def stHello : St :=
  { vault := [("Hello.md", "x")], folders := [], routes := [], isSyncing := false, trace := [] }

/-- A vault already holding `Hello.md` and `Hello 1.md`. -/
def stHello2 : St :=
  { vault := [("Hello.md", "x"), ("Hello 1.md", "y")], folders := [], routes := [],
    isSyncing := false, trace := [] }

/-- C4: the conflict policy shared by note creation (`resolveConflictPath`)
and attachment writing (`writeBinaryToAttachments` via
`chooseAttachmentName`): a desired path at which nothing exists is returned
unchanged; otherwise the result is `"<base> i<ext>"` for the least positive
integer `i` whose candidate does not exist, deterministically and without
touching any existing file (both functions only probe existence).  Concretely,
a folder already containing `Hello.md` yields `Hello 1.md`, and one containing
`Hello.md` and `Hello 1.md` yields `Hello 2.md`. -/
theorem conflictPolicy (st : St) (target folder filename : String) :
    ((existsPath st target = false → resolveConflictPath st target = target) ∧
     (existsPath st target = true →
       ∃ i, 1 ≤ i ∧
         resolveConflictPath st target =
           numberedCand (splitLastDot target).1 (splitLastDot target).2 i ∧
         existsPath st (numberedCand (splitLastDot target).1 (splitLastDot target).2 i) = false ∧
         ∀ j, 1 ≤ j → j < i →
           existsPath st (numberedCand (splitLastDot target).1 (splitLastDot target).2 j) = true)) ∧
    (wellFormedPath folder = true → wellFormedSeg filename = true →
      ((existsPath st (makePath folder filename) = false →
        chooseAttachmentName st folder filename = filename) ∧
       (existsPath st (makePath folder filename) = true →
        ∃ i, 1 ≤ i ∧
          chooseAttachmentName st folder filename =
            numberedCand (splitLastDot filename).1 (splitLastDot filename).2 i ∧
          existsPath st (makePath folder
            (numberedCand (splitLastDot filename).1 (splitLastDot filename).2 i)) = false ∧
          ∀ j, 1 ≤ j → j < i → existsPath st (makePath folder
            (numberedCand (splitLastDot filename).1 (splitLastDot filename).2 j)) = true))) ∧
    (resolveConflictPath stHello "Hello.md" = "Hello 1.md" ∧
     resolveConflictPath stHello2 "Hello.md" = "Hello 2.md") :=
  ⟨resolveConflict_spec st target,
    fun hf hn => chooseAttachmentName_spec st folder filename hf hn,
    by decide, by decide⟩

/-- Witness for `conflictPolicy`: every hypothesis discharged at concrete
vaults. -/
theorem conflictPolicy_witness :
    resolveConflictPath stEmpty "Fresh.md" = "Fresh.md" ∧
    (∃ i, 1 ≤ i ∧
      resolveConflictPath stHello "Hello.md" =
        numberedCand (splitLastDot "Hello.md").1 (splitLastDot "Hello.md").2 i ∧
      existsPath stHello
        (numberedCand (splitLastDot "Hello.md").1 (splitLastDot "Hello.md").2 i) = false ∧
      ∀ j, 1 ≤ j → j < i → existsPath stHello
        (numberedCand (splitLastDot "Hello.md").1 (splitLastDot "Hello.md").2 j) = true) ∧
    chooseAttachmentName stHello "Flow State" "voice.m4a" = "voice.m4a" :=
  ⟨(conflictPolicy stEmpty "Fresh.md" "a" "b").1.1 (by decide),
    (conflictPolicy stHello "Hello.md" "a" "b").1.2 (by decide),
    ((conflictPolicy stHello "Hello.md" "Flow State" "voice.m4a").2.1 (by decide)
      (by decide)).1 (by decide)⟩

/-! ## Claim C9: safe note filenames -/


theorem dropWhile_head_false (p : Char → Bool) :
    ∀ (l : List Char) (c : Char) (r : List Char), l.dropWhile p = c :: r → p c = false := by
  intro l
  induction l with
  | nil => intro c r h; simp [List.dropWhile] at h
  | cons a t ih =>
    intro c r h
    by_cases hp : p a
    · rw [List.dropWhile_cons_of_pos hp] at h
      exact ih c r h
    · rw [List.dropWhile_cons_of_neg hp] at h
      cases h
      simpa using hp

theorem dropTrailingWs_isPre (l : List Char) : dropTrailingWs l <+: l := by
  unfold dropTrailingWs
  have h := List.dropWhile_suffix (l := l.reverse) isWs
  have := List.reverse_prefix.mpr h
  simpa using this

theorem trimChars_head_false (l : List Char) (c : Char) (r : List Char)
    (h : trimChars l = c :: r) : isWs c = false := by
  unfold trimChars at h
  obtain ⟨t, ht⟩ := dropTrailingWs_isPre (l.dropWhile isWs)
  rw [h] at ht
  exact dropWhile_head_false isWs l c (r ++ t) (by simpa using ht.symm)

theorem trimChars_ne_nil (c : Char) (r : List Char) (hc : isWs c = false) :
    trimChars (c :: r) ≠ [] := by
  unfold trimChars dropTrailingWs
  rw [List.dropWhile_cons_of_neg (by simp [hc])]
  intro hcon
  rw [List.reverse_eq_nil_iff] at hcon
  have hall := List.dropWhile_eq_nil_iff.mp hcon
  have hcmem : c ∈ (c :: r).reverse := by simp
  have := hall c hcmem
  rw [hc] at this
  exact Bool.noConfusion this

theorem trimChars_subset (l : List Char) : trimChars l ⊆ l := by
  unfold trimChars
  intro c hc
  have h1 := (dropTrailingWs_isPre (l.dropWhile isWs)).subset hc
  exact (List.dropWhile_suffix isWs).subset h1

theorem trimChars_length_le (l : List Char) : (trimChars l).length ≤ l.length := by
  have h1 := (dropTrailingWs_isPre (l.dropWhile isWs)).length_le
  have h2 := (List.dropWhile_suffix (l := l) isWs).length_le
  unfold trimChars
  omega

theorem jsEndsWith_append (x : String) : jsEndsWith (x ++ ".md") ".md" = true := by
  unfold jsEndsWith
  rw [List.isSuffixOf_iff_suffix, String.data_append]
  exact List.suffix_append x.data (".md").data

/-- C9 counterexample: with `maxLength = 0` the base truncates to the empty
string, so the produced name `".md"` has an empty base, contradicting the
claim that a non-empty base is produced for every `maxLength`. -/
theorem zeroMaxLengthEmptyBase : buildSafeNoteFilename "Hello" 0 = ".md" := by decide

/-- C9 (amended, `maxLength ≥ 1`): `buildSafeNoteFilename` produces a
non-empty base `b` (falling back to the placeholder "Untitled" when the title
sanitizes to empty), truncated to at most `maxLength` characters, appends the
".md" extension when `b` does not already end with it, and its output contains
no filename-illegal characters. -/
theorem safeFilenameBehavior (title : String) (maxLength : Nat) (hmax : 1 ≤ maxLength) :
    ∃ b : String,
      b ≠ "" ∧
      b.length ≤ maxLength ∧
      buildSafeNoteFilename title maxLength =
        (if jsEndsWith b ".md" then b else b ++ ".md") ∧
      jsEndsWith (buildSafeNoteFilename title maxLength) ".md" = true ∧
      (∀ c ∈ (buildSafeNoteFilename title maxLength).data, illegalFilenameChar c = false) ∧
      (jsTrim (sanitizeFilename (if title = "" then "Untitled" else title)) = "" →
        buildSafeNoteFilename title maxLength = buildSafeNoteFilename "Untitled" maxLength) := by
  set X := (if title = "" then "Untitled" else title) with hX
  set S := jsTrim (sanitizeFilename X) with hS
  set B := (if S.length > 0 then S else "Untitled") with hB
  set T := (if B.length > maxLength then jsTrim (jsTake B maxLength) else B) with hT
  have hbd : buildSafeNoteFilename title maxLength =
      (if jsEndsWith T ".md" then T else T ++ ".md") := by
    rw [hT, hB, hS, hX]
    rfl
  have hBhead : ∃ c r, B.data = c :: r ∧ isWs c = false := by
    rw [hB]
    by_cases hs : S.length > 0
    · rw [if_pos hs]
      cases hSd : S.data with
      | nil =>
        exfalso
        have hl : S.length = S.data.length := rfl
        rw [hSd] at hl
        simp at hl
        omega
      | cons c r =>
        refine ⟨c, r, rfl, ?_⟩
        have h2 : S.data = trimChars ((sanitizeFilename X).data) := rfl
        rw [h2] at hSd
        exact trimChars_head_false _ c r hSd
    · rw [if_neg hs]
      exact ⟨'U', "ntitled".data, rfl, by decide⟩
  obtain ⟨c0, r0, hBd, hc0⟩ := hBhead
  have hBne : B ≠ "" := by
    intro hcon
    rw [hcon] at hBd
    simp at hBd
  have hTne : T ≠ "" := by
    rw [hT]
    by_cases hlen : B.length > maxLength
    · rw [if_pos hlen]
      have htake : (jsTake B maxLength).data = c0 :: r0.take (maxLength - 1) := by
        simp only [jsTake, hBd]
        cases maxLength with
        | zero => omega
        | succ m => simp
      intro hcon
      have : trimChars ((jsTake B maxLength).data) = [] := by
        have := congrArg String.data hcon
        simpa [jsTrim] using this
      rw [htake] at this
      exact trimChars_ne_nil c0 _ hc0 this
    · rw [if_neg hlen]
      exact hBne
  have hTlen : T.length ≤ maxLength := by
    rw [hT]
    by_cases hlen : B.length > maxLength
    · rw [if_pos hlen]
      have h1 : (jsTrim (jsTake B maxLength)).length =
          (trimChars ((jsTake B maxLength).data)).length := by
        simp [jsTrim, String.length]
      have h2 := trimChars_length_le ((jsTake B maxLength).data)
      have h3 : (jsTake B maxLength).data.length ≤ maxLength := by
        simp [jsTake]
      simp only [String.length] at *
      omega
    · rw [if_neg hlen]
      omega
  have hTsub : ∀ c ∈ T.data, c ∈ B.data ∨ c ∈ "Untitled".data := by
    intro c hc
    rw [hT] at hc
    by_cases hlen : B.length > maxLength
    · rw [if_pos hlen] at hc
      have h1 : c ∈ (jsTake B maxLength).data := by
        have : (jsTrim (jsTake B maxLength)).data =
            trimChars ((jsTake B maxLength).data) := by simp [jsTrim]
        rw [this] at hc
        exact trimChars_subset _ hc
      have : c ∈ B.data := by
        simp only [jsTake] at h1
        exact List.take_subset _ _ (by simpa using h1)
      exact Or.inl this
    · rw [if_neg hlen] at hc
      exact Or.inl hc
  have hBleg : ∀ c ∈ B.data, illegalFilenameChar c = false := by
    intro c hc
    rw [hB] at hc
    by_cases hs : S.length > 0
    · rw [if_pos hs] at hc
      have h1 : c ∈ (sanitizeFilename X).data := by
        have : S.data = trimChars ((sanitizeFilename X).data) := by simp [hS, jsTrim]
        rw [this] at hc
        exact trimChars_subset _ hc
      have h2 : c ∈ X.data.filter (fun c => !illegalFilenameChar c) := by
        simpa [sanitizeFilename] using h1
      have := List.of_mem_filter h2
      simpa using this
    · rw [if_neg hs] at hc
      revert hc
      have : ∀ c ∈ ("Untitled" : String).data, illegalFilenameChar c = false := by decide
      exact this c
  have hTleg : ∀ c ∈ T.data, illegalFilenameChar c = false := by
    intro c hc
    rcases hTsub c hc with h | h
    · exact hBleg c h
    · revert h
      have : ∀ c ∈ ("Untitled" : String).data, illegalFilenameChar c = false := by decide
      exact this c
  have hmd : ∀ c ∈ (".md" : String).data, illegalFilenameChar c = false := by decide
  refine ⟨T, hTne, hTlen, hbd, ?_, ?_, ?_⟩
  · rw [hbd]
    by_cases he : jsEndsWith T ".md" = true
    · rw [if_pos he]
      exact he
    · rw [if_neg he]
      exact jsEndsWith_append T
  · intro c hc
    rw [hbd] at hc
    by_cases he : jsEndsWith T ".md" = true
    · rw [if_pos he] at hc
      exact hTleg c hc
    · rw [if_neg he] at hc
      rw [String.data_append] at hc
      rcases List.mem_append.mp hc with h | h
      · exact hTleg c h
      · exact hmd c h
  · intro hzero
    have hS0 : S = "" := by rw [hS, hX]; exact hzero
    have hSlen : ¬(S.length > 0) := by
      rw [hS0]
      simp [String.length]
    have hBu : B = "Untitled" := by rw [hB, if_neg hSlen]
    have hUnt : jsTrim (sanitizeFilename "Untitled") = "Untitled" := by decide
    have hrhs : buildSafeNoteFilename "Untitled" maxLength =
        (if jsEndsWith (if ("Untitled" : String).length > maxLength then
            jsTrim (jsTake "Untitled" maxLength) else "Untitled") ".md" = true then
          (if ("Untitled" : String).length > maxLength then
            jsTrim (jsTake "Untitled" maxLength) else "Untitled")
        else (if ("Untitled" : String).length > maxLength then
            jsTrim (jsTake "Untitled" maxLength) else "Untitled") ++ ".md") := rfl
    rw [hbd, hrhs, hT, hBu]

/-- Witness for `safeFilenameBehavior` at title "Hello" and maxLength 120. -/
theorem safeFilenameBehavior_witness :
    ∃ b : String,
      b ≠ "" ∧
      b.length ≤ 120 ∧
      buildSafeNoteFilename "Hello" 120 =
        (if jsEndsWith b ".md" then b else b ++ ".md") ∧
      jsEndsWith (buildSafeNoteFilename "Hello" 120) ".md" = true ∧
      (∀ c ∈ (buildSafeNoteFilename "Hello" 120).data, illegalFilenameChar c = false) ∧
      (jsTrim (sanitizeFilename (if "Hello" = "" then "Untitled" else "Hello")) = "" →
        buildSafeNoteFilename "Hello" 120 = buildSafeNoteFilename "Untitled" 120) :=
  safeFilenameBehavior "Hello" 120 (by decide)

end FlowState
